import Mathlib

/-!
Verification of the Sudoku board model, the backtracking solver and the
backtracking generator (`src/grid.py`, `src/solver.py`,
`src/grid_generation.py`).

The Python classes are embedded shallowly: a `Field` is a record of two
coordinates and a value, a `Grid` is the list of its fields (the Python
`tuple` of `Field` objects, in construction order).  Mutation of a field
through the object returned by `Grid.field(x, y)` is rendered as an update
of the first coordinate-matching entry of the list, which is exactly the
object Python's linear scan returns.  Exceptions become `Except`/`Option`
results, and the two recursive searches are fuel-indexed functions that
additionally return the final state of the grid they worked on, so that
statements about mutation and undo can be made.
-/

namespace Sudoku

/-- One cell of the board (`Field` in `grid.py`): coordinates `x`, `y` in
`[0,8]` and a value in `[0,9]`, `0` meaning empty.  The range constraints are
enforced by Python `assert`s at construction; here they are carried by the
validity predicates below. -/
structure Field where
  x : Nat
  y : Nat
  value : Nat
deriving DecidableEq, Repr

/-- The invariant `Field.__init__` establishes: coordinates in `[0,8]`,
value in `[0,9]`. -/
def Field.ok (f : Field) : Prop :=
  f.x ≤ 8 ∧ f.y ≤ 8 ∧ f.value ≤ 9

instance : DecidablePred Field.ok := fun f => by
  unfold Field.ok; infer_instance

/-- `Field.is_empty`: the value equals `0`. -/
def Field.isEmpty (f : Field) : Bool :=
  f.value == 0

/-- `Field.copy`: a fresh field with the same coordinates and value. -/
def Field.copy (f : Field) : Field :=
  ⟨f.x, f.y, f.value⟩

/-- The board (`Grid` in `grid.py`): the tuple of its 81 fields. -/
structure Grid where
  fields : List Field
deriving DecidableEq, Repr

/-- The invariant `Grid.__init__` establishes (81 fields, pairwise distinct
coordinates) together with the per-field invariant from `Field.__init__`. -/
def Grid.ok (g : Grid) : Prop :=
  g.fields.length = 81 ∧
  g.fields.Pairwise (fun f1 f2 => ¬(f1.x = f2.x ∧ f1.y = f2.y)) ∧
  ∀ f ∈ g.fields, f.ok

instance : DecidablePred Grid.ok := fun g => by
  unfold Grid.ok; infer_instance

/-- `Grid.empty_fields`: the fields whose value is `0`. -/
def Grid.emptyFields (g : Grid) : List Field :=
  g.fields.filter (fun f => f.isEmpty)

/-- `Grid.filled_fields`: the fields whose value is not `0`. -/
def Grid.filledFields (g : Grid) : List Field :=
  g.fields.filter (fun f => !f.isEmpty)

/-- `Grid.num_of_empty_fields`. -/
def Grid.numEmpty (g : Grid) : Nat :=
  g.emptyFields.length

/-- `Grid.copy`: the deep copy, rebuilding every field. -/
def Grid.copy (g : Grid) : Grid :=
  ⟨g.fields.map Field.copy⟩

/-- `Grid.is_complete`: no empty field remains. -/
def Grid.isComplete (g : Grid) : Bool :=
  g.emptyFields.length == 0

/-- `Grid.row(y)`: the fields whose `y` coordinate matches. -/
def Grid.row (g : Grid) (y : Nat) : List Field :=
  g.fields.filter (fun f => f.y == y)

/-- `Grid.column(x)`: the fields whose `x` coordinate matches. -/
def Grid.column (g : Grid) (x : Nat) : List Field :=
  g.fields.filter (fun f => f.x == x)

/-- The lookup loop inside `Grid.field(x, y)`: the first field of the tuple
with the given coordinates, `none` when there is none (the `ValueError`
branch).  The surrounding range asserts are modelled by `Grid.fieldE`. -/
def Grid.fieldFirst (g : Grid) (x y : Nat) : Option Field :=
  g.fields.find? (fun f => f.x == x && f.y == y)

/-- Errors raised by the Python code: the `AssertionError`s of construction
and range checks, the `ValueError` of `Grid.field`, the empty-`choice`
`IndexError` of `empty_values`, and the solver's no-solution exception. -/
inductive Err where
  | invalidGrid
  | outOfRange
  | notFound
  | invalidArgument
  | choiceFromEmpty
deriving DecidableEq, Repr

/-- `Grid.field(x, y)` with its full assert semantics: coordinates are
Python ints, an out-of-range coordinate fails the `assert` (`OutOfRange`),
and a missing field raises `ValueError` (`NotFound`). -/
def Grid.fieldE (g : Grid) (x y : Int) : Except Err Field :=
  if 0 ≤ x ∧ x ≤ 8 ∧ 0 ≤ y ∧ y ≤ 8 then
    match g.fields.find? (fun f => (f.x : Int) == x && (f.y : Int) == y) with
    | some f => .ok f
    | none => .error .notFound
  else .error .outOfRange

/-- `Grid.small_square(x, y)`: the nine fields of the 3x3 block holding
`(x, y)`, looked up one by one from the block's top-left corner
`(x/3*3, y/3*3)`; the outer loop runs over the `x` offset, the inner one
over the `y` offset.  A failing lookup would raise in Python; it is dropped
here and is impossible on a grid satisfying `Grid.ok`. -/
def Grid.smallSquare (g : Grid) (x y : Nat) : List Field :=
  let baseX := x / 3 * 3
  let baseY := y / 3 * 3
  (List.range 3).flatMap (fun i =>
    (List.range 3).flatMap (fun j =>
      (g.fieldFirst (baseX + i) (baseY + j)).toList))

/-- `Grid.can_be_in_row`: `value` does not occur in `row(y)` once the
fields with the probed `x` coordinate are removed. -/
def Grid.canBeInRow (g : Grid) (value x y : Nat) : Bool :=
  !(((g.row y).filter (fun f => f.x != x)).map Field.value).contains value

/-- `Grid.can_be_in_column`: `value` does not occur in `column(x)` once the
fields with the probed `y` coordinate are removed. -/
def Grid.canBeInColumn (g : Grid) (value x y : Nat) : Bool :=
  !(((g.column x).filter (fun f => f.y != y)).map Field.value).contains value

/-- `Grid.can_be_in_small_square`: `value` does not occur in the 3x3 block
once the fields sharing either the probed row or the probed column are
removed (`field.y != y and field.x != x`). -/
def Grid.canBeInSmallSquare (g : Grid) (value x y : Nat) : Bool :=
  !(((g.smallSquare x y).filter (fun f => f.y != y && f.x != x)).map
      Field.value).contains value

/-- `Grid.can_be_at`: the conjunction of the row, column and small-square
checks. -/
def Grid.canBeAt (g : Grid) (value x y : Nat) : Bool :=
  g.canBeInRow value x y && g.canBeInColumn value x y &&
    g.canBeInSmallSquare value x y

/-- `Grid.is_consistent`: every filled field passes `can_be_at` for its own
value at its own coordinates. -/
def Grid.isConsistent (g : Grid) : Bool :=
  g.filledFields.all (fun f => g.canBeAt f.value f.x f.y)

/-- `Grid.is_solved`. -/
def Grid.isSolved (g : Grid) : Bool :=
  g.isComplete && g.isConsistent

/-- The effect of `current_field.value = v` when `current_field` is the
object returned by `Grid.field(x, y)`: the first field of the list with the
given coordinates gets the new value, everything else is untouched. -/
def updateFirst (l : List Field) (x y v : Nat) : List Field :=
  match l with
  | [] => []
  | f :: fs =>
    if f.x = x ∧ f.y = y then ⟨f.x, f.y, v⟩ :: fs
    else f :: updateFirst fs x y v

/-- Assignment to the field at `(x, y)` of a grid, as performed by the
searches through the object returned by `Grid.field`. -/
def Grid.setValue (g : Grid) (x y v : Nat) : Grid :=
  ⟨updateFirst g.fields x y v⟩

/-- The scan at the head of both recursive searches: the coordinates are
enumerated with `x` as the outer loop and `y` as the inner loop, and the
first pair whose field is empty is the branch point. -/
def Grid.findEmpty (g : Grid) : Option (Nat × Nat) :=
  ((List.range 9).flatMap (fun x => (List.range 9).map (fun y => (x, y)))).find?
    (fun p =>
      match g.fieldFirst p.1 p.2 with
      | some f => f.isEmpty
      | none => false)

/-- The candidate loop of `BacktrackingSolver.__backtrack`: values `1..9` in
order, each checked with `can_be_at` against the current grid, assigned,
recursed on, and reset to `0` when the recursion comes back without a
solution.  A found solution is propagated without the reset.  `recur` is the
recursive call at the next depth; the returned pair is the outcome together
with the state of the (mutated) grid when the loop ends. -/
def solverLoop (recur : Grid → Option Grid × Grid) (x y : Nat) :
    List Nat → Grid → Option Grid × Grid
  | [], g => (none, g)
  | v :: vs, g =>
    if g.canBeAt v x y then
      match recur (g.setValue x y v) with
      | (some sol, gs) => (some sol, gs)
      | (none, g2) => solverLoop recur x y vs (g2.setValue x y 0)
    else solverLoop recur x y vs g

/-- `BacktrackingSolver.__backtrack`, fuel-indexed: find the first empty
cell in raster order; if none exists raise `SolutionFound` with the current
grid (rendered as a `some` outcome), otherwise run the candidate loop.  The
second component is the state of the grid object after the call. -/
def backtrackAux : Nat → Grid → Option Grid × Grid
  | 0, g => (none, g)
  | fuel + 1, g =>
    match g.findEmpty with
    | none => (some g, g)
    | some (x, y) => solverLoop (backtrackAux fuel) x y (List.range' 1 9) g

/-- `BacktrackingSolver.solve` at a given fuel: copy the caller's grid,
search the copy, return the grid carried by `SolutionFound`, and fail
(`NoSolution`, rendered as `none`) when the search exhausts itself. -/
def solveFuel (fuel : Nat) (g : Grid) : Option Grid :=
  (backtrackAux fuel g.copy).1

/-- `BacktrackingSolver.solve`: the recursion depth is bounded by the number
of empty cells, so 82 units of fuel can never be exhausted on a real board.
-/
def solve (g : Grid) : Option Grid :=
  solveFuel 82 g

/-- `BacktrackingSolver.solve` seen from the caller: the result together
with the caller's grid after the call, which the method never touches
because it searches a private copy. -/
def solveCaller (g : Grid) : Option Grid × Grid :=
  ((backtrackAux 82 g.copy).1, g)

/-- `GridGenerator.possible_values`: the values of `1..9` accepted by
`can_be_at` at `(x, y)`. -/
def possibleValues (g : Grid) (x y : Nat) : List Nat :=
  (List.range' 1 9).filter (fun v => g.canBeAt v x y)

/-- The candidate loop of `BacktrackingGenerator.__fill_grid`: the values of
the pre-computed shuffled candidate list are assigned in turn without a
further check, recursed on, and reset to `0` when the recursion comes back;
a found solution is propagated without the reset.  The `Nat` component
threads the position in the stream of random shuffles. -/
def genLoop (recur : Nat → Grid → Option Grid × Grid × Nat) (x y : Nat) :
    List Nat → Nat → Grid → Option Grid × Grid × Nat
  | [], k, g => (none, g, k)
  | v :: vs, k, g =>
    match recur k (g.setValue x y v) with
    | (some sol, gs, k2) => (some sol, gs, k2)
    | (none, g2, k2) => genLoop recur x y vs k2 (g2.setValue x y 0)

/-- `BacktrackingGenerator.__fill_grid`, fuel-indexed.  `shs` is the stream
of random shuffles: the `k`-th call of `random.shuffle` turns the candidate
list `l` into `shs k l`.  The first empty cell in raster order is the branch
point; its `possible_values` are shuffled and tried by `genLoop`. -/
def fillGridAux (shs : Nat → List Nat → List Nat) :
    Nat → Nat → Grid → Option Grid × Grid × Nat
  | 0, k, g => (none, g, k)
  | fuel + 1, k, g =>
    match g.findEmpty with
    | none => (some g, g, k)
    | some (x, y) =>
      genLoop (fillGridAux shs fuel) x y (shs k (possibleValues g x y)) (k + 1) g

/-- `GridGenerator.empty_grid`: 81 empty fields, built with `x` as the outer
loop and `y` as the inner loop. -/
def emptyGrid : Grid :=
  ⟨(List.range 9).flatMap (fun x => (List.range 9).map (fun y => ⟨x, y, 0⟩))⟩

/-- `BacktrackingGenerator.generate`: fill the empty grid with the shuffled
search; the grid carried by the `_GridGenerated` exception is the result and
`None` is returned when the exception never fires. -/
def generate (shs : Nat → List Nat → List Nat) : Option Grid :=
  (fillGridAux shs 82 0 emptyGrid).1

/-- `GridGenerator.__init__`: the configured number of cells to empty must
lie in `[0, 81)`, otherwise the `assert` fails (`InvalidArgument`). -/
def generatorInit (n : Int) : Except Err Int :=
  if 0 ≤ n ∧ n < 81 then .ok n else .error .invalidArgument

/-- Indices (positions in the field tuple) of the filled fields, starting at
position `i`: the positions of the objects `Grid.filled_fields` returns. -/
def filledIdxsFrom : Nat → List Field → List Nat
  | _, [] => []
  | i, f :: fs =>
    if !f.isEmpty then i :: filledIdxsFrom (i + 1) fs
    else filledIdxsFrom (i + 1) fs

/-- Positions of the filled fields of a grid. -/
def Grid.filledIdxs (g : Grid) : List Nat :=
  filledIdxsFrom 0 g.fields

/-- Setting the field at position `i` of the tuple to `0`: the effect of
`choice(grid.filled_fields).value = 0` once the chosen object's position is
known. -/
def Grid.clearAt (g : Grid) (i : Nat) : Grid :=
  ⟨g.fields.set i
    ⟨(g.fields.getD i ⟨0, 0, 0⟩).x, (g.fields.getD i ⟨0, 0, 0⟩).y, 0⟩⟩

/-- The loop of `GridGenerator.empty_values`: `t` rounds remain; each round
picks a random filled field (`sel t` names the random draw: the element of
index `sel t % length` of `filled_fields`) and sets it to `0`.  `choice` on
an empty tuple raises `IndexError`. -/
def emptyValuesAux (sel : Nat → Nat) : Nat → Grid → Except Err Grid
  | 0, g => .ok g
  | t + 1, g =>
    let idxs := g.filledIdxs
    match idxs.get? (sel t % idxs.length) with
    | none => .error .choiceFromEmpty
    | some i => emptyValuesAux sel t (g.clearAt i)

/-- `GridGenerator.empty_values`: deep-copy the grid, then empty `k`
randomly chosen filled fields. -/
def emptyValues (sel : Nat → Nat) (k : Nat) (g : Grid) : Except Err Grid :=
  emptyValuesAux sel k g.copy

/-- `Grid.__init__` run on caller-supplied fields: first the count assert,
then the pairwise coordinate-duplicate scan (each field against every later
one). -/
def gridInit (fs : List Field) : Except Err Grid :=
  if fs.length ≠ 81 then .error .invalidGrid
  else if hasDupCoords fs then .error .invalidGrid
  else .ok ⟨fs⟩
where
  /-- The duplicate scan of `Grid.__init__`: some field shares coordinates
  with a later one. -/
  hasDupCoords : List Field → Bool
    | [] => false
    | f :: fs => fs.any (fun f2 => f.x == f2.x && f.y == f2.y) || hasDupCoords fs

/-- A board builder for concrete scenarios: field `(x, y)` carries
`val x y`, listed with `x` as the outer loop like `empty_grid`. -/
def mkGrid (val : Nat → Nat → Nat) : Grid :=
  ⟨(List.range 9).flatMap (fun x => (List.range 9).map (fun y => ⟨x, y, val x y⟩))⟩

/-- The spec's concrete inconsistent scenario: empty except for the value
`5` at `(0,0)` and at `(1,0)` (the two cells share row `y = 0`). -/
def twoFives : Grid :=
  mkGrid (fun x y => if (x = 0 ∧ y = 0) ∨ (x = 1 ∧ y = 0) then 5 else 0)

/-- A complete but maximally inconsistent board: every cell holds `5`. -/
def allFives : Grid :=
  mkGrid (fun _ _ => 5)

/-- A board on which the search dead-ends immediately: `(0,0)` is empty,
its row already holds `2..9` and its column holds `1`, so no candidate
passes `can_be_at` there. -/
def deadEnd : Grid :=
  mkGrid (fun x y =>
    if y = 0 ∧ 1 ≤ x then x + 1
    else if x = 0 ∧ y = 1 then 1 else 0)

/-- A complete consistent reference solution with `1` at `(0,0)`: row `y`
holds the cyclic shift of `1..9` starting at `[0,3,6,1,4,7,2,5,8][y] + 1`.
-/
def shiftedSolution : Grid :=
  mkGrid (fun x y => (x + (y % 3) * 3 + y / 3) % 9 + 1)

/-- The value the board holds at `(x, y)`: the value of the field
`Grid.field(x, y)` would return, `0` when there is none. -/
def valAt (g : Grid) (x y : Nat) : Nat :=
  match g.fieldFirst x y with
  | some f => f.value
  | none => 0

/-- Two coordinate pairs share a Sudoku unit: same row, same column, or
same 3x3 block. -/
def sameUnit (x1 y1 x2 y2 : Nat) : Prop :=
  y1 = y2 ∨ x1 = x2 ∨ (x1 / 3 = x2 / 3 ∧ y1 / 3 = y2 / 3)

instance (x1 y1 x2 y2 : Nat) : Decidable (sameUnit x1 y1 x2 y2) := by
  unfold sameUnit; infer_instance

/-- `g'` extends `g`: every filled field of `g` keeps its value in `g'`. -/
def ExtendsTo (g g' : Grid) : Prop :=
  ∀ f ∈ g.fields, f.value ≠ 0 → valAt g' f.x f.y = f.value

instance (g g' : Grid) : Decidable (ExtendsTo g g') := by
  unfold ExtendsTo; infer_instance

/-- Relative consistency: no filled field of `g` that was empty in `g0`
agrees in value with another filled field of its row, column or block.
This is the property the search establishes for the cells it fills: each
trial value is vetted against the whole board at insertion time, and later
insertions are vetted against it in turn. -/
def NoNewConflict (g0 g : Grid) : Prop :=
  ∀ f1 ∈ g.fields, ∀ f2 ∈ g.fields,
    valAt g0 f1.x f1.y = 0 → f1.value ≠ 0 → f2.value ≠ 0 →
    ¬(f1.x = f2.x ∧ f1.y = f2.y) → sameUnit f1.x f1.y f2.x f2.y →
    f1.value ≠ f2.value

instance (g0 g : Grid) : Decidable (NoNewConflict g0 g) := by
  unfold NoNewConflict; infer_instance

/-- The coordinate layout of the field tuple, in order. -/
def coordsOf (g : Grid) : List (Nat × Nat) :=
  g.fields.map (fun f => (f.x, f.y))

/-! ### Basic lemmas about field update and lookup -/

theorem fieldCopy_id (f : Field) : f.copy = f := rfl

theorem gridCopy_id (g : Grid) : g.copy = g := by
  cases g with
  | mk fields =>
    simp only [Grid.copy, Grid.mk.injEq]
    exact List.map_id' fields

theorem updateFirst_coords (l : List Field) (x y v : Nat) :
    (updateFirst l x y v).map (fun f => (f.x, f.y)) =
      l.map (fun f => (f.x, f.y)) := by
  induction l with
  | nil => rfl
  | cons f fs ih =>
    by_cases h : f.x = x ∧ f.y = y
    · simp [updateFirst, h]
    · simp [updateFirst, h, ih]

theorem coordsOf_setValue (g : Grid) (x y v : Nat) :
    coordsOf (g.setValue x y v) = coordsOf g :=
  updateFirst_coords g.fields x y v

theorem length_updateFirst (l : List Field) (x y v : Nat) :
    (updateFirst l x y v).length = l.length := by
  have h := congrArg List.length (updateFirst_coords l x y v)
  simpa using h

theorem mem_updateFirst {l : List Field} {x y v : Nat} {f' : Field}
    (h : f' ∈ updateFirst l x y v) :
    f' ∈ l ∨ (f'.x = x ∧ f'.y = y ∧ f'.value = v) := by
  induction l with
  | nil => cases h
  | cons f fs ih =>
    by_cases hc : f.x = x ∧ f.y = y
    · simp only [updateFirst, if_pos hc] at h
      rcases List.mem_cons.mp h with rfl | hmem
      · exact Or.inr ⟨hc.1, hc.2, rfl⟩
      · exact Or.inl (List.mem_cons_of_mem _ hmem)
    · simp only [updateFirst, if_neg hc] at h
      rcases List.mem_cons.mp h with rfl | hmem
      · exact Or.inl (List.mem_cons_self _ _)
      · rcases ih hmem with h1 | h2
        · exact Or.inl (List.mem_cons_of_mem _ h1)
        · exact Or.inr h2

theorem pairwise_coords_iff (l : List Field) :
    l.Pairwise (fun f1 f2 => ¬(f1.x = f2.x ∧ f1.y = f2.y)) ↔
      (l.map (fun f => (f.x, f.y))).Pairwise (fun p q => p ≠ q) := by
  rw [List.pairwise_map]
  constructor
  · exact fun h => h.imp (fun hab => by simpa [Prod.ext_iff] using hab)
  · exact fun h => h.imp (fun hab => by simpa [Prod.ext_iff] using hab)

theorem Grid.ok_setValue {g : Grid} (hok : g.ok) {x y v : Nat}
    (hx : x ≤ 8) (hy : y ≤ 8) (hv : v ≤ 9) : (g.setValue x y v).ok := by
  obtain ⟨hlen, hpw, hfld⟩ := hok
  refine ⟨?_, ?_, ?_⟩
  · rw [Grid.setValue, length_updateFirst]; exact hlen
  · rw [pairwise_coords_iff]
    show ((g.setValue x y v).fields.map (fun f => (f.x, f.y))).Pairwise _
    rw [show (g.setValue x y v).fields = updateFirst g.fields x y v from rfl,
      updateFirst_coords]
    exact (pairwise_coords_iff g.fields).mp hpw
  · intro f' hf'
    rcases mem_updateFirst hf' with hmem | ⟨h1, h2, h3⟩
    · exact hfld f' hmem
    · exact ⟨h1 ▸ hx, h2 ▸ hy, h3 ▸ hv⟩

theorem find?_coords_unique :
    ∀ (l : List Field),
      l.Pairwise (fun f1 f2 => ¬(f1.x = f2.x ∧ f1.y = f2.y)) →
      ∀ {f : Field}, f ∈ l →
        l.find? (fun f' => f'.x == f.x && f'.y == f.y) = some f := by
  intro l hpw f hf
  induction l with
  | nil => cases hf
  | cons a as ih =>
    rw [List.pairwise_cons] at hpw
    rcases List.mem_cons.mp hf with rfl | hmem
    · rw [List.find?_cons_of_pos]; simp
    · have hne := hpw.1 f hmem
      rw [List.find?_cons_of_neg]
      · exact ih hpw.2 hmem
      · simpa using fun h1 h2 => hne ⟨h1, h2⟩

theorem fieldFirst_of_mem {g : Grid} (hok : g.ok) {f : Field}
    (hf : f ∈ g.fields) : g.fieldFirst f.x f.y = some f :=
  find?_coords_unique g.fields hok.2.1 hf

theorem valAt_of_mem {g : Grid} (hok : g.ok) {f : Field}
    (hf : f ∈ g.fields) : valAt g f.x f.y = f.value := by
  rw [valAt, fieldFirst_of_mem hok hf]

theorem coords_cover_list {l : List Field} (hlen : l.length = 81)
    (hpw : l.Pairwise (fun f1 f2 => ¬(f1.x = f2.x ∧ f1.y = f2.y)))
    (hfld : ∀ f ∈ l, f.x ≤ 8 ∧ f.y ≤ 8) {x y : Nat}
    (hx : x ≤ 8) (hy : y ≤ 8) : ∃ f ∈ l, f.x = x ∧ f.y = y := by
  have hnodup : (l.map (fun f => (f.x, f.y))).Nodup :=
    (pairwise_coords_iff l).mp hpw
  have hsub : (l.map (fun f => (f.x, f.y))).toFinset ⊆
      Finset.range 9 ×ˢ Finset.range 9 := by
    intro p hp
    rw [List.mem_toFinset] at hp
    obtain ⟨f, hfm, hfe⟩ := List.mem_map.mp hp
    obtain ⟨hfx, hfy⟩ := hfld f hfm
    rw [Finset.mem_product, Finset.mem_range, Finset.mem_range, ← hfe]
    exact ⟨Nat.lt_succ_of_le hfx, Nat.lt_succ_of_le hfy⟩
  have hcard : ((l.map (fun f => (f.x, f.y))).toFinset).card = 81 := by
    rw [List.toFinset_card_of_nodup hnodup]
    simpa using hlen
  have heq : (l.map (fun f => (f.x, f.y))).toFinset =
      Finset.range 9 ×ˢ Finset.range 9 := by
    apply Finset.eq_of_subset_of_card_le hsub
    rw [hcard]
    simp
  have hxy : (x, y) ∈ (l.map (fun f => (f.x, f.y))).toFinset := by
    rw [heq, Finset.mem_product, Finset.mem_range, Finset.mem_range]
    exact ⟨Nat.lt_succ_of_le hx, Nat.lt_succ_of_le hy⟩
  rw [List.mem_toFinset] at hxy
  obtain ⟨f, hfm, hfe⟩ := List.mem_map.mp hxy
  exact ⟨f, hfm, congrArg Prod.fst hfe, congrArg Prod.snd hfe⟩

theorem coords_cover {g : Grid} (hok : g.ok) {x y : Nat}
    (hx : x ≤ 8) (hy : y ≤ 8) : ∃ f ∈ g.fields, f.x = x ∧ f.y = y := by
  obtain ⟨hlen, hpw, hfld⟩ := hok
  exact coords_cover_list hlen hpw
    (fun f hf => ⟨(hfld f hf).1, (hfld f hf).2.1⟩) hx hy

theorem fieldFirst_total {g : Grid} (hok : g.ok) {x y : Nat}
    (hx : x ≤ 8) (hy : y ≤ 8) :
    ∃ f, g.fieldFirst x y = some f ∧ f.x = x ∧ f.y = y ∧ f ∈ g.fields := by
  obtain ⟨f, hfm, hfx, hfy⟩ := coords_cover hok hx hy
  refine ⟨f, ?_, hfx, hfy, hfm⟩
  rw [← hfx, ← hfy]
  exact fieldFirst_of_mem hok hfm

theorem find?_cons_eval {p : Field → Bool} (f : Field) (l : List Field) :
    (f :: l).find? p = if p f then some f else l.find? p := by
  by_cases h : p f
  · rw [List.find?_cons_of_pos _ h, if_pos h]
  · rw [List.find?_cons_of_neg _ h, if_neg h]

theorem find?_updateFirst_same {x y : Nat} (v : Nat) :
    ∀ l : List Field, (l.find? (fun f => f.x == x && f.y == y)).isSome →
      (updateFirst l x y v).find? (fun f => f.x == x && f.y == y) =
        some ⟨x, y, v⟩ := by
  intro l hl
  induction l with
  | nil => simp at hl
  | cons f fs ih =>
    by_cases hc : f.x = x ∧ f.y = y
    · simp only [updateFirst, if_pos hc]
      rw [find?_cons_eval, if_pos (by simp [hc.1, hc.2])]
      rw [hc.1, hc.2]
    · have hpf : ((fun f => f.x == x && f.y == y) f) = false := by
        simp only [Bool.and_eq_false_iff]
        rcases Decidable.not_and_iff_or_not.mp hc with h | h
        · exact Or.inl (by simpa using h)
        · exact Or.inr (by simpa using h)
      simp only [updateFirst, if_neg hc]
      rw [find?_cons_eval, if_neg (by simp [hpf])]
      apply ih
      rw [find?_cons_eval, if_neg (by simp [hpf])] at hl
      exact hl

theorem updateFirst_cancel {x y : Nat} (v : Nat) :
    ∀ l : List Field, ∀ {f0 : Field},
      l.find? (fun f => f.x == x && f.y == y) = some f0 → f0.value = 0 →
      updateFirst (updateFirst l x y v) x y 0 = l := by
  intro l
  induction l with
  | nil => intro f0 h; simp at h
  | cons f fs ih =>
    intro f0 hfind h0
    by_cases hc : f.x = x ∧ f.y = y
    · rw [find?_cons_eval, if_pos (by simp [hc.1, hc.2])] at hfind
      have hf0 : f = f0 := by injection hfind
      have hfv : f.value = 0 := by rw [hf0]; exact h0
      simp only [updateFirst, if_pos hc]
      have hfe : (⟨f.x, f.y, 0⟩ : Field) = f := by rw [← hfv]
      rw [hfe]
    · have hpf : ((fun f => f.x == x && f.y == y) f) = false := by
        simp only [Bool.and_eq_false_iff]
        rcases Decidable.not_and_iff_or_not.mp hc with h | h
        · exact Or.inl (by simpa using h)
        · exact Or.inr (by simpa using h)
      rw [find?_cons_eval, if_neg (by simp [hpf])] at hfind
      simp only [updateFirst, if_neg hc]
      rw [ih hfind h0]

theorem find?_updateFirst_ne {x y x' y' : Nat} (v : Nat)
    (hne : ¬(x' = x ∧ y' = y)) :
    ∀ l : List Field,
      (updateFirst l x y v).find? (fun f => f.x == x' && f.y == y') =
        l.find? (fun f => f.x == x' && f.y == y') := by
  intro l
  induction l with
  | nil => rfl
  | cons f fs ih =>
    by_cases hc : f.x = x ∧ f.y = y
    · have hp : ¬(f.x = x' ∧ f.y = y') := by
        intro hp
        exact hne ⟨hp.1 ▸ hc.1, hp.2 ▸ hc.2⟩
      simp only [updateFirst, if_pos hc]
      rw [find?_cons_eval, find?_cons_eval,
        if_neg (by simpa using fun h1 h2 => hp ⟨h1, h2⟩),
        if_neg (by simpa using fun h1 h2 => hp ⟨h1, h2⟩)]
    · simp only [updateFirst, if_neg hc]
      rw [find?_cons_eval, find?_cons_eval]
      by_cases hp : f.x = x' ∧ f.y = y'
      · rw [if_pos (by simp [hp.1, hp.2]), if_pos (by simp [hp.1, hp.2])]
      · rw [if_neg (by simpa using fun h1 h2 => hp ⟨h1, h2⟩),
          if_neg (by simpa using fun h1 h2 => hp ⟨h1, h2⟩)]
        exact ih

theorem setValue_cancel {g : Grid} {x y : Nat} {f0 : Field}
    (h : g.fieldFirst x y = some f0) (h0 : f0.value = 0) (v : Nat) :
    (g.setValue x y v).setValue x y 0 = g := by
  cases g with
  | mk fields =>
    show Grid.mk (updateFirst (updateFirst fields x y v) x y 0) = Grid.mk fields
    rw [updateFirst_cancel v fields h h0]

theorem fieldFirst_setValue_same {g : Grid} {x y : Nat}
    (h : (g.fieldFirst x y).isSome) (v : Nat) :
    (g.setValue x y v).fieldFirst x y = some ⟨x, y, v⟩ :=
  find?_updateFirst_same v g.fields h

theorem valAt_setValue_same {g : Grid} {x y : Nat}
    (h : (g.fieldFirst x y).isSome) (v : Nat) :
    valAt (g.setValue x y v) x y = v := by
  rw [valAt, fieldFirst_setValue_same h v]

theorem fieldFirst_setValue_ne {g : Grid} {x y x' y' : Nat} (v : Nat)
    (hne : ¬(x' = x ∧ y' = y)) :
    (g.setValue x y v).fieldFirst x' y' = g.fieldFirst x' y' :=
  find?_updateFirst_ne v hne g.fields

theorem valAt_setValue_ne {g : Grid} {x y x' y' : Nat} (v : Nat)
    (hne : ¬(x' = x ∧ y' = y)) :
    valAt (g.setValue x y v) x' y' = valAt g x' y' := by
  rw [valAt, valAt, fieldFirst_setValue_ne v hne]

theorem countP_updateFirst {x y v : Nat} (hv : v ≠ 0) :
    ∀ l : List Field, ∀ {f0 : Field},
      l.find? (fun f => f.x == x && f.y == y) = some f0 → f0.value = 0 →
      (updateFirst l x y v).countP (fun f => f.isEmpty) + 1 =
        l.countP (fun f => f.isEmpty) := by
  intro l
  induction l with
  | nil => intro f0 h; simp at h
  | cons f fs ih =>
    intro f0 hfind h0
    by_cases hc : f.x = x ∧ f.y = y
    · rw [find?_cons_eval, if_pos (by simp [hc.1, hc.2])] at hfind
      have hf0 : f = f0 := by injection hfind
      have hfv : f.value = 0 := by rw [hf0]; exact h0
      simp only [updateFirst, if_pos hc, List.countP_cons]
      have h1 : (Field.isEmpty ⟨f.x, f.y, v⟩) = false := by
        simp [Field.isEmpty, hv]
      have h2 : f.isEmpty = true := by simp [Field.isEmpty, hfv]
      rw [h1, h2]
      simp
    · have hpf : ((fun f => f.x == x && f.y == y) f) = false := by
        simp only [Bool.and_eq_false_iff]
        rcases Decidable.not_and_iff_or_not.mp hc with h | h
        · exact Or.inl (by simpa using h)
        · exact Or.inr (by simpa using h)
      rw [find?_cons_eval, if_neg (by simp [hpf])] at hfind
      simp only [updateFirst, if_neg hc, List.countP_cons]
      rw [← ih hfind h0]
      omega

theorem numEmpty_eq_countP (g : Grid) :
    g.numEmpty = g.fields.countP (fun f => f.isEmpty) := by
  rw [Grid.numEmpty, Grid.emptyFields, ← List.countP_eq_length_filter]

theorem numEmpty_setValue {g : Grid} {x y v : Nat} {f0 : Field}
    (h : g.fieldFirst x y = some f0) (h0 : f0.value = 0) (hv : v ≠ 0) :
    (g.setValue x y v).numEmpty + 1 = g.numEmpty := by
  rw [numEmpty_eq_countP, numEmpty_eq_countP]
  exact countP_updateFirst hv g.fields h h0

theorem extendsTo_refl {g : Grid} (hok : g.ok) : ExtendsTo g g :=
  fun f hf _ => valAt_of_mem hok hf

theorem extendsTo_trans {g g1 g2 : Grid} (h1 : ExtendsTo g g1)
    (h2 : ExtendsTo g1 g2) : ExtendsTo g g2 := by
  intro f hf hfv
  have hv1 : valAt g1 f.x f.y = f.value := h1 f hf hfv
  cases hfind : g1.fieldFirst f.x f.y with
  | none =>
    rw [valAt, hfind] at hv1
    exact absurd hv1.symm hfv
  | some f1 =>
    have hv1' : f1.value = f.value := by rw [← hv1, valAt, hfind]
    have hmem : f1 ∈ g1.fields := List.mem_of_find?_eq_some hfind
    have hpred := List.find?_some hfind
    simp only [Bool.and_eq_true, beq_iff_eq] at hpred
    obtain ⟨hx1, hy1⟩ := hpred
    have := h2 f1 hmem (by rw [hv1']; exact hfv)
    rw [hx1, hy1, hv1'] at this
    exact this

theorem extendsTo_setValue {g : Grid} (hok : g.ok) {x y : Nat} {f0 : Field}
    (h : g.fieldFirst x y = some f0) (h0 : f0.value = 0) (v : Nat) :
    ExtendsTo g (g.setValue x y v) := by
  intro f hf hfv
  by_cases hc : f.x = x ∧ f.y = y
  · exfalso
    have := fieldFirst_of_mem hok hf
    rw [hc.1, hc.2, h] at this
    injection this with he
    rw [← he] at hfv
    exact hfv h0
  · rw [valAt_setValue_ne v hc]
    exact valAt_of_mem hok hf

theorem findEmpty_none_complete {g : Grid} (hok : g.ok)
    (h : g.findEmpty = none) : g.isComplete = true := by
  rw [Grid.findEmpty, List.find?_eq_none] at h
  have hall : ∀ f ∈ g.fields, f.isEmpty = false := by
    intro f hf
    obtain ⟨hfx, hfy, -⟩ := hok.2.2 f hf
    have hmem : (f.x, f.y) ∈ (List.range 9).flatMap
        (fun x => (List.range 9).map (fun y => (x, y))) := by
      rw [List.mem_flatMap]
      refine ⟨f.x, List.mem_range.mpr (Nat.lt_succ_of_le hfx), ?_⟩
      rw [List.mem_map]
      exact ⟨f.y, List.mem_range.mpr (Nat.lt_succ_of_le hfy), rfl⟩
    have hp := h (f.x, f.y) hmem
    rw [fieldFirst_of_mem hok hf] at hp
    simpa using hp
  rw [Grid.isComplete, Grid.emptyFields]
  have : g.fields.filter (fun f => f.isEmpty) = [] := by
    rw [List.filter_eq_nil]
    intro f hf
    simp [hall f hf]
  rw [this]
  rfl

theorem findEmpty_some {g : Grid} {x y : Nat}
    (h : g.findEmpty = some (x, y)) :
    x ≤ 8 ∧ y ≤ 8 ∧ ∃ f0, g.fieldFirst x y = some f0 ∧ f0.value = 0 := by
  rw [Grid.findEmpty] at h
  have hmem := List.mem_of_find?_eq_some h
  have hpred := List.find?_some h
  rw [List.mem_flatMap] at hmem
  obtain ⟨a, ha, hmem2⟩ := hmem
  rw [List.mem_map] at hmem2
  obtain ⟨b, hb, heq⟩ := hmem2
  have hax : a = x := congrArg Prod.fst heq
  have hby : b = y := congrArg Prod.snd heq
  refine ⟨hax ▸ Nat.lt_succ_iff.mp (List.mem_range.mp ha),
    hby ▸ Nat.lt_succ_iff.mp (List.mem_range.mp hb), ?_⟩
  cases hfind : g.fieldFirst x y with
  | none =>
    exfalso
    simp only [hfind] at hpred
    simp at hpred
  | some f0 =>
    refine ⟨f0, rfl, ?_⟩
    simp only [hfind] at hpred
    simpa [Field.isEmpty] using hpred

/-! ### Characterization of the placement check -/

theorem mem_row {g : Grid} {y : Nat} {f : Field} :
    f ∈ g.row y ↔ f ∈ g.fields ∧ f.y = y := by
  simp [Grid.row, List.mem_filter]

theorem mem_column {g : Grid} {x : Nat} {f : Field} :
    f ∈ g.column x ↔ f ∈ g.fields ∧ f.x = x := by
  simp [Grid.column, List.mem_filter]

theorem mem_smallSquare {g : Grid} (hok : g.ok) {x y : Nat}
    (hx : x ≤ 8) (hy : y ≤ 8) {f : Field} :
    f ∈ g.smallSquare x y ↔
      f ∈ g.fields ∧ f.x / 3 = x / 3 ∧ f.y / 3 = y / 3 := by
  constructor
  · intro hf
    simp only [Grid.smallSquare, List.mem_flatMap, List.mem_range] at hf
    obtain ⟨i, hi, hf2⟩ := hf
    obtain ⟨j, hj, hf3⟩ := hf2
    cases hff : g.fieldFirst (x / 3 * 3 + i) (y / 3 * 3 + j) with
    | none => rw [hff] at hf3; cases hf3
    | some f' =>
      rw [hff] at hf3
      have hfe : f = f' := by simpa using hf3
      subst hfe
      have hmem := List.mem_of_find?_eq_some hff
      have hpred := List.find?_some hff
      simp only [Bool.and_eq_true, beq_iff_eq] at hpred
      refine ⟨hmem, ?_, ?_⟩
      · rw [hpred.1]; omega
      · rw [hpred.2]; omega
  · intro h
    obtain ⟨hmem, hbx, hby⟩ := h
    obtain ⟨hfx8, hfy8, -⟩ := hok.2.2 f hmem
    simp only [Grid.smallSquare, List.mem_flatMap, List.mem_range]
    refine ⟨f.x - x / 3 * 3, by omega, f.y - y / 3 * 3, by omega, ?_⟩
    have he1 : x / 3 * 3 + (f.x - x / 3 * 3) = f.x := by omega
    have he2 : y / 3 * 3 + (f.y - y / 3 * 3) = f.y := by omega
    rw [he1, he2, fieldFirst_of_mem hok hmem]
    simp

theorem canBeInRow_iff {g : Grid} {v x y : Nat} :
    g.canBeInRow v x y = true ↔
      ∀ f ∈ g.fields, f.y = y → f.x ≠ x → f.value ≠ v := by
  rw [Grid.canBeInRow, Bool.not_eq_true']
  constructor
  · intro h f hf hfy hfx hfv
    have : v ∈ ((g.row y).filter (fun f => f.x != x)).map Field.value := by
      rw [List.mem_map]
      refine ⟨f, ?_, hfv⟩
      rw [List.mem_filter]
      exact ⟨mem_row.mpr ⟨hf, hfy⟩, by simpa using hfx⟩
    have h2 : (((g.row y).filter (fun f => f.x != x)).map
        Field.value).contains v = true := List.elem_iff.mpr this
    rw [h2] at h
    simp at h
  · intro h
    by_contra hc
    rw [Bool.not_eq_false] at hc
    replace hc := List.mem_map.mp (List.elem_iff.mp hc)
    obtain ⟨f, hfm, hfv⟩ := hc
    rw [List.mem_filter] at hfm
    obtain ⟨hfr, hfx⟩ := hfm
    obtain ⟨hfmem, hfy⟩ := mem_row.mp hfr
    exact h f hfmem hfy (by simpa using hfx) hfv

theorem canBeInColumn_iff {g : Grid} {v x y : Nat} :
    g.canBeInColumn v x y = true ↔
      ∀ f ∈ g.fields, f.x = x → f.y ≠ y → f.value ≠ v := by
  rw [Grid.canBeInColumn, Bool.not_eq_true']
  constructor
  · intro h f hf hfx hfy hfv
    have : v ∈ ((g.column x).filter (fun f => f.y != y)).map Field.value := by
      rw [List.mem_map]
      refine ⟨f, ?_, hfv⟩
      rw [List.mem_filter]
      exact ⟨mem_column.mpr ⟨hf, hfx⟩, by simpa using hfy⟩
    have h2 : (((g.column x).filter (fun f => f.y != y)).map
        Field.value).contains v = true := List.elem_iff.mpr this
    rw [h2] at h
    simp at h
  · intro h
    by_contra hc
    rw [Bool.not_eq_false] at hc
    replace hc := List.mem_map.mp (List.elem_iff.mp hc)
    obtain ⟨f, hfm, hfv⟩ := hc
    rw [List.mem_filter] at hfm
    obtain ⟨hfc, hfy⟩ := hfm
    obtain ⟨hfmem, hfx⟩ := mem_column.mp hfc
    exact h f hfmem hfx (by simpa using hfy) hfv

theorem canBeInSmallSquare_iff {g : Grid} (hok : g.ok) {v x y : Nat}
    (hx : x ≤ 8) (hy : y ≤ 8) :
    g.canBeInSmallSquare v x y = true ↔
      ∀ f ∈ g.fields, f.x / 3 = x / 3 → f.y / 3 = y / 3 →
        f.y ≠ y → f.x ≠ x → f.value ≠ v := by
  rw [Grid.canBeInSmallSquare, Bool.not_eq_true']
  constructor
  · intro h f hf hbx hby hfy hfx hfv
    have : v ∈ ((g.smallSquare x y).filter
        (fun f => f.y != y && f.x != x)).map Field.value := by
      rw [List.mem_map]
      refine ⟨f, ?_, hfv⟩
      rw [List.mem_filter]
      refine ⟨(mem_smallSquare hok hx hy).mpr ⟨hf, hbx, hby⟩, ?_⟩
      simp [hfy, hfx]
    have h2 : (((g.smallSquare x y).filter
        (fun f => f.y != y && f.x != x)).map
        Field.value).contains v = true := List.elem_iff.mpr this
    rw [h2] at h
    simp at h
  · intro h
    by_contra hc
    rw [Bool.not_eq_false] at hc
    replace hc := List.mem_map.mp (List.elem_iff.mp hc)
    obtain ⟨f, hfm, hfv⟩ := hc
    rw [List.mem_filter] at hfm
    obtain ⟨hfs, hfne⟩ := hfm
    obtain ⟨hfmem, hbx, hby⟩ := (mem_smallSquare hok hx hy).mp hfs
    simp only [Bool.and_eq_true, bne_iff_ne, ne_eq] at hfne
    exact h f hfmem hbx hby hfne.1 hfne.2 hfv

/-- The three helpers of `can_be_at` jointly compare `value` against every
field sharing a row, column or 3x3 block with `(x, y)` — except the field
at `(x, y)` itself, which each helper omits (the small-square helper omits
more, but the row and column helpers cover what it drops). -/
theorem canBeAt_iff {g : Grid} (hok : g.ok) {v x y : Nat}
    (hx : x ≤ 8) (hy : y ≤ 8) :
    g.canBeAt v x y = true ↔
      ∀ f ∈ g.fields, ¬(f.x = x ∧ f.y = y) → sameUnit f.x f.y x y →
        f.value ≠ v := by
  rw [Grid.canBeAt]
  simp only [Bool.and_eq_true]
  rw [canBeInRow_iff, canBeInColumn_iff, canBeInSmallSquare_iff hok hx hy]
  constructor
  · intro ⟨⟨hrow, hcol⟩, hsq⟩ f hf hne hsu
    rcases hsu with hsy | hsx | ⟨hbx, hby⟩
    · by_cases hfx : f.x = x
      · exact absurd ⟨hfx, hsy⟩ hne
      · exact hrow f hf hsy hfx
    · by_cases hfy : f.y = y
      · exact absurd ⟨hsx, hfy⟩ hne
      · exact hcol f hf hsx hfy
    · by_cases hfy : f.y = y
      · by_cases hfx : f.x = x
        · exact absurd ⟨hfx, hfy⟩ hne
        · exact hrow f hf hfy hfx
      · by_cases hfx : f.x = x
        · exact hcol f hf hfx hfy
        · exact hsq f hf hbx hby hfy hfx
  · intro h
    refine ⟨⟨?_, ?_⟩, ?_⟩
    · intro f hf hfy hfx
      exact h f hf (fun hp => hfx hp.1) (Or.inl hfy)
    · intro f hf hfx hfy
      exact h f hf (fun hp => hfy hp.2) (Or.inr (Or.inl hfx))
    · intro f hf hbx hby hfy hfx
      exact h f hf (fun hp => hfx hp.1) (Or.inr (Or.inr ⟨hbx, hby⟩))

/-! ### Restoration: a failed branch puts the grid back as it was -/

theorem solverLoop_none_restores
    (recur : Grid → Option Grid × Grid)
    (hrec : ∀ g g2, recur g = (none, g2) → g2 = g)
    {x y : Nat} :
    ∀ (vs : List Nat) (g : Grid) {f0 : Field},
      g.fieldFirst x y = some f0 → f0.value = 0 →
      ∀ {g2 : Grid}, solverLoop recur x y vs g = (none, g2) → g2 = g := by
  intro vs
  induction vs with
  | nil =>
    intro g f0 hff h0 g2 h
    simp only [solverLoop] at h
    injection h with h1 h2
    exact h2.symm
  | cons v vs ih =>
    intro g f0 hff h0 g2 h
    simp only [solverLoop] at h
    by_cases hc : g.canBeAt v x y
    · rw [if_pos hc] at h
      cases hrc : recur (g.setValue x y v) with
      | mk o gs =>
        cases o with
        | some sol => simp only [hrc] at h; simp at h
        | none =>
          simp only [hrc] at h
          have hgs : gs = g.setValue x y v := hrec _ _ hrc
          subst hgs
          rw [setValue_cancel hff h0 v] at h
          exact ih g hff h0 h
    · rw [if_neg hc] at h
      exact ih g hff h0 h

theorem backtrackAux_none_restores :
    ∀ (fuel : Nat) (g : Grid) {g2 : Grid},
      backtrackAux fuel g = (none, g2) → g2 = g := by
  intro fuel
  induction fuel with
  | zero =>
    intro g g2 h
    simp only [backtrackAux] at h
    injection h with h1 h2
    exact h2.symm
  | succ fuel ih =>
    intro g g2 h
    simp only [backtrackAux] at h
    cases hfe : g.findEmpty with
    | none => simp only [hfe] at h; simp at h
    | some p =>
      obtain ⟨x, y⟩ := p
      simp only [hfe] at h
      obtain ⟨-, -, f0, hff, h0⟩ := findEmpty_some hfe
      exact solverLoop_none_restores _ (fun ga gb hab => ih ga hab) _ g hff h0 h

theorem genLoop_none_restores
    (recur : Nat → Grid → Option Grid × Grid × Nat)
    (hrec : ∀ k g g2 k2, recur k g = (none, g2, k2) → g2 = g)
    {x y : Nat} :
    ∀ (vs : List Nat) (k : Nat) (g : Grid) {f0 : Field},
      g.fieldFirst x y = some f0 → f0.value = 0 →
      ∀ {g2 : Grid} {k2 : Nat},
        genLoop recur x y vs k g = (none, g2, k2) → g2 = g := by
  intro vs
  induction vs with
  | nil =>
    intro k g f0 hff h0 g2 k2 h
    simp only [genLoop] at h
    injection h with h1 h2
    injection h2 with h2 h3
    exact h2.symm
  | cons v vs ih =>
    intro k g f0 hff h0 g2 k2 h
    simp only [genLoop] at h
    cases hrc : recur k (g.setValue x y v) with
    | mk o rest =>
      cases rest with
      | mk gs ks =>
        cases o with
        | some sol => simp only [hrc] at h; simp at h
        | none =>
          simp only [hrc] at h
          have hgs : gs = g.setValue x y v := hrec _ _ _ _ hrc
          subst hgs
          rw [setValue_cancel hff h0 v] at h
          exact ih ks g hff h0 h

theorem fillGridAux_none_restores (shs : Nat → List Nat → List Nat) :
    ∀ (fuel k : Nat) (g : Grid) {g2 : Grid} {k2 : Nat},
      fillGridAux shs fuel k g = (none, g2, k2) → g2 = g := by
  intro fuel
  induction fuel with
  | zero =>
    intro k g g2 k2 h
    simp only [fillGridAux] at h
    injection h with h1 h2
    injection h2 with h2 h3
    exact h2.symm
  | succ fuel ih =>
    intro k g g2 k2 h
    simp only [fillGridAux] at h
    cases hfe : g.findEmpty with
    | none => simp only [hfe] at h; simp at h
    | some p =>
      obtain ⟨x, y⟩ := p
      simp only [hfe] at h
      obtain ⟨-, -, f0, hff, h0⟩ := findEmpty_some hfe
      exact genLoop_none_restores _ (fun ka ga gb kb hab => ih ka ga hab) _ _ g
        hff h0 h

/-! ### Soundness: a grid reported found is complete and conflict-free -/

theorem sameUnit_symm {x1 y1 x2 y2 : Nat} (h : sameUnit x1 y1 x2 y2) :
    sameUnit x2 y2 x1 y1 := by
  rcases h with h | h | ⟨h1, h2⟩
  · exact Or.inl h.symm
  · exact Or.inr (Or.inl h.symm)
  · exact Or.inr (Or.inr ⟨h1.symm, h2.symm⟩)

theorem valAt_ne_zero {g : Grid} {x y : Nat} (h : valAt g x y ≠ 0) :
    ∃ f, g.fieldFirst x y = some f ∧ f ∈ g.fields ∧ f.x = x ∧ f.y = y ∧
      f.value = valAt g x y := by
  cases hff : g.fieldFirst x y with
  | none => rw [valAt, hff] at h; exact absurd rfl h
  | some f =>
    have hpred := List.find?_some hff
    simp only [Bool.and_eq_true, beq_iff_eq] at hpred
    exact ⟨f, rfl, List.mem_of_find?_eq_some hff, hpred.1, hpred.2,
      by rw [valAt, hff]⟩

theorem solverLoop_some_cases
    (recur : Grid → Option Grid × Grid)
    (hrec : ∀ g g2, recur g = (none, g2) → g2 = g)
    {x y : Nat} :
    ∀ (vs : List Nat) (g : Grid) {f0 : Field},
      g.fieldFirst x y = some f0 → f0.value = 0 →
      ∀ {sol gs : Grid}, solverLoop recur x y vs g = (some sol, gs) →
        ∃ v ∈ vs, g.canBeAt v x y = true ∧
          recur (g.setValue x y v) = (some sol, gs) := by
  intro vs
  induction vs with
  | nil =>
    intro g f0 hff h0 sol gs h
    simp only [solverLoop] at h
    simp at h
  | cons v vs ih =>
    intro g f0 hff h0 sol gs h
    simp only [solverLoop] at h
    by_cases hc : g.canBeAt v x y
    · rw [if_pos hc] at h
      cases hrc : recur (g.setValue x y v) with
      | mk o gres =>
        cases o with
        | some s2 =>
          simp only [hrc] at h
          exact ⟨v, List.mem_cons_self _ _, hc, hrc.trans h⟩
        | none =>
          simp only [hrc] at h
          have hgs : gres = g.setValue x y v := hrec _ _ hrc
          subst hgs
          rw [setValue_cancel hff h0 v] at h
          obtain ⟨w, hw, hcw, hrw⟩ := ih g hff h0 h
          exact ⟨w, List.mem_cons_of_mem _ hw, hcw, hrw⟩
    · rw [if_neg hc] at h
      obtain ⟨w, hw, hcw, hrw⟩ := ih g hff h0 h
      exact ⟨w, List.mem_cons_of_mem _ hw, hcw, hrw⟩

theorem backtrackAux_sound :
    ∀ (fuel : Nat) (g : Grid), g.ok →
      ∀ {sol gs : Grid}, backtrackAux fuel g = (some sol, gs) →
        sol.ok ∧ sol.isComplete = true ∧ ExtendsTo g sol ∧
          NoNewConflict g sol := by
  intro fuel
  induction fuel with
  | zero =>
    intro g hok sol gs h
    simp only [backtrackAux] at h
    simp at h
  | succ fuel ih =>
    intro g hok sol gs h
    simp only [backtrackAux] at h
    cases hfe : g.findEmpty with
    | none =>
      simp only [hfe] at h
      have hsol : sol = g := by
        injection h with h1 h2
        injection h1 with h1
        exact h1.symm
      subst hsol
      refine ⟨hok, findEmpty_none_complete hok hfe, extendsTo_refl hok, ?_⟩
      intro f1 h1 f2 h2 hv0 hf1 hf2 hne hsu
      exfalso
      rw [valAt_of_mem hok h1] at hv0
      exact hf1 hv0
    | some p =>
      obtain ⟨x, y⟩ := p
      simp only [hfe] at h
      obtain ⟨hx, hy, f0, hff, h0⟩ := findEmpty_some hfe
      obtain ⟨v, hv_mem, hcba, hrc⟩ := solverLoop_some_cases _
        (fun ga gb hab => backtrackAux_none_restores fuel ga hab) _ g hff h0 h
      rw [List.mem_range'_1] at hv_mem
      have hv1 : 1 ≤ v := hv_mem.1
      have hv9 : v ≤ 9 := by omega
      have hok1 : (g.setValue x y v).ok := Grid.ok_setValue hok hx hy hv9
      obtain ⟨hsok, hscomp, hsext, hsnc⟩ := ih (g.setValue x y v) hok1 hrc
      have hffS : ((g.fieldFirst x y).isSome) = true := by rw [hff]; rfl
      have hmemN : (⟨x, y, v⟩ : Field) ∈ (g.setValue x y v).fields :=
        List.mem_of_find?_eq_some (fieldFirst_setValue_same hffS v)
      have hsolxy : valAt sol x y = v :=
        hsext ⟨x, y, v⟩ hmemN (show v ≠ 0 by omega)
      refine ⟨hsok, hscomp, extendsTo_trans (extendsTo_setValue hok hff h0 v)
        hsext, ?_⟩
      intro f1 hm1 f2 hm2 hv0 hf1 hf2 hne hsu
      by_cases hA : valAt (g.setValue x y v) f1.x f1.y = 0
      · exact hsnc f1 hm1 f2 hm2 hA hf1 hf2 hne hsu
      · have hf1c : f1.x = x ∧ f1.y = y := by
          by_contra hcn
          rw [valAt_setValue_ne v hcn] at hA
          exact hA hv0
        have hf1v : f1.value = v := by
          have hv1' := valAt_of_mem hsok hm1
          rw [hf1c.1, hf1c.2, hsolxy] at hv1'
          exact hv1'.symm
        by_cases hB : valAt (g.setValue x y v) f2.x f2.y = 0
        · have hne2 : ¬(f2.x = f1.x ∧ f2.y = f1.y) :=
            fun hp => hne ⟨hp.1.symm, hp.2.symm⟩
          exact (hsnc f2 hm2 f1 hm1 hB hf2 hf1 hne2 (sameUnit_symm hsu)).symm
        · have hf2c : ¬(f2.x = x ∧ f2.y = y) := by
            intro hp
            exact hne ⟨hf1c.1.trans hp.1.symm, hf1c.2.trans hp.2.symm⟩
          obtain ⟨fg1, hfg1ff, hfg1m, hfg1x, hfg1y, hfg1v⟩ := valAt_ne_zero hB
          have hfg1v0 : fg1.value ≠ 0 := by rw [hfg1v]; exact hB
          have hsolf2 : valAt sol f2.x f2.y = fg1.value := by
            have := hsext fg1 hfg1m hfg1v0
            rw [hfg1x, hfg1y] at this
            exact this
          have hf2v : f2.value = fg1.value := by
            have := valAt_of_mem hsok hm2
            rw [this] at hsolf2
            exact hsolf2
          have hgval : valAt g f2.x f2.y = fg1.value := by
            rw [← valAt_setValue_ne v hf2c, ← hfg1v]
          have hgne : valAt g f2.x f2.y ≠ 0 := by
            rw [hgval]; exact hfg1v0
          obtain ⟨fg, hfgff, hfgm, hfgx, hfgy, hfgv⟩ := valAt_ne_zero hgne
          have hfgc : ¬(fg.x = x ∧ fg.y = y) := by
            rw [hfgx, hfgy]; exact hf2c
          have hfgsu : sameUnit fg.x fg.y x y := by
            rw [hfgx, hfgy]
            have := sameUnit_symm hsu
            rw [hf1c.1, hf1c.2] at this
            exact this
          have := (canBeAt_iff hok hx hy).mp hcba fg hfgm hfgc hfgsu
          rw [hfgv, hgval] at this
          rw [hf1v, hf2v]
          exact fun he => this he.symm

theorem mem_possibleValues {g : Grid} {x y v : Nat} :
    v ∈ possibleValues g x y ↔ (1 ≤ v ∧ v ≤ 9) ∧ g.canBeAt v x y = true := by
  rw [possibleValues, List.mem_filter, List.mem_range'_1]
  constructor
  · intro ⟨h1, h2⟩
    exact ⟨⟨h1.1, by omega⟩, h2⟩
  · intro ⟨h1, h2⟩
    exact ⟨⟨h1.1, by omega⟩, h2⟩

theorem genLoop_some_cases
    (recur : Nat → Grid → Option Grid × Grid × Nat)
    (hrec : ∀ k g g2 k2, recur k g = (none, g2, k2) → g2 = g)
    {x y : Nat} :
    ∀ (vs : List Nat) (k : Nat) (g : Grid) {f0 : Field},
      g.fieldFirst x y = some f0 → f0.value = 0 →
      ∀ {sol gs : Grid} {k2 : Nat},
        genLoop recur x y vs k g = (some sol, gs, k2) →
        ∃ v ∈ vs, ∃ k3, recur k3 (g.setValue x y v) = (some sol, gs, k2) := by
  intro vs
  induction vs with
  | nil =>
    intro k g f0 hff h0 sol gs k2 h
    simp only [genLoop] at h
    simp at h
  | cons v vs ih =>
    intro k g f0 hff h0 sol gs k2 h
    simp only [genLoop] at h
    cases hrc : recur k (g.setValue x y v) with
    | mk o rest =>
      cases rest with
      | mk gres kres =>
        cases o with
        | some s2 =>
          simp only [hrc] at h
          exact ⟨v, List.mem_cons_self _ _, k, hrc.trans h⟩
        | none =>
          simp only [hrc] at h
          have hgs : gres = g.setValue x y v := hrec _ _ _ _ hrc
          subst hgs
          rw [setValue_cancel hff h0 v] at h
          obtain ⟨w, hw, k3, hrw⟩ := ih kres g hff h0 h
          exact ⟨w, List.mem_cons_of_mem _ hw, k3, hrw⟩

theorem fillGridAux_sound (shs : Nat → List Nat → List Nat)
    (hsh : ∀ k l, (shs k l).Perm l) :
    ∀ (fuel : Nat) (k : Nat) (g : Grid), g.ok →
      ∀ {sol gs : Grid} {k2 : Nat},
        fillGridAux shs fuel k g = (some sol, gs, k2) →
        sol.ok ∧ sol.isComplete = true ∧ ExtendsTo g sol ∧
          NoNewConflict g sol := by
  intro fuel
  induction fuel with
  | zero =>
    intro k g hok sol gs k2 h
    simp only [fillGridAux] at h
    simp at h
  | succ fuel ih =>
    intro k g hok sol gs k2 h
    simp only [fillGridAux] at h
    cases hfe : g.findEmpty with
    | none =>
      simp only [hfe] at h
      have hsol : sol = g := by
        injection h with h1 h2
        injection h1 with h1
        exact h1.symm
      subst hsol
      refine ⟨hok, findEmpty_none_complete hok hfe, extendsTo_refl hok, ?_⟩
      intro f1 h1 f2 h2 hv0 hf1 hf2 hne hsu
      exfalso
      rw [valAt_of_mem hok h1] at hv0
      exact hf1 hv0
    | some p =>
      obtain ⟨x, y⟩ := p
      simp only [hfe] at h
      obtain ⟨hx, hy, f0, hff, h0⟩ := findEmpty_some hfe
      obtain ⟨v, hv_mem, k3, hrc⟩ := genLoop_some_cases _
        (fun ka ga gb kb hab => fillGridAux_none_restores shs fuel ka ga hab)
        _ _ g hff h0 h
      have hv_pv : v ∈ possibleValues g x y := (hsh k _).mem_iff.mp hv_mem
      obtain ⟨⟨hv1, hv9⟩, hcba⟩ := mem_possibleValues.mp hv_pv
      have hok1 : (g.setValue x y v).ok := Grid.ok_setValue hok hx hy hv9
      obtain ⟨hsok, hscomp, hsext, hsnc⟩ := ih k3 (g.setValue x y v) hok1 hrc
      have hffS : ((g.fieldFirst x y).isSome) = true := by rw [hff]; rfl
      have hmemN : (⟨x, y, v⟩ : Field) ∈ (g.setValue x y v).fields :=
        List.mem_of_find?_eq_some (fieldFirst_setValue_same hffS v)
      have hsolxy : valAt sol x y = v :=
        hsext ⟨x, y, v⟩ hmemN (show v ≠ 0 by omega)
      refine ⟨hsok, hscomp, extendsTo_trans (extendsTo_setValue hok hff h0 v)
        hsext, ?_⟩
      intro f1 hm1 f2 hm2 hv0 hf1 hf2 hne hsu
      by_cases hA : valAt (g.setValue x y v) f1.x f1.y = 0
      · exact hsnc f1 hm1 f2 hm2 hA hf1 hf2 hne hsu
      · have hf1c : f1.x = x ∧ f1.y = y := by
          by_contra hcn
          rw [valAt_setValue_ne v hcn] at hA
          exact hA hv0
        have hf1v : f1.value = v := by
          have hv1' := valAt_of_mem hsok hm1
          rw [hf1c.1, hf1c.2, hsolxy] at hv1'
          exact hv1'.symm
        by_cases hB : valAt (g.setValue x y v) f2.x f2.y = 0
        · have hne2 : ¬(f2.x = f1.x ∧ f2.y = f1.y) :=
            fun hp => hne ⟨hp.1.symm, hp.2.symm⟩
          exact (hsnc f2 hm2 f1 hm1 hB hf2 hf1 hne2 (sameUnit_symm hsu)).symm
        · have hf2c : ¬(f2.x = x ∧ f2.y = y) := by
            intro hp
            exact hne ⟨hf1c.1.trans hp.1.symm, hf1c.2.trans hp.2.symm⟩
          obtain ⟨fg1, hfg1ff, hfg1m, hfg1x, hfg1y, hfg1v⟩ := valAt_ne_zero hB
          have hfg1v0 : fg1.value ≠ 0 := by rw [hfg1v]; exact hB
          have hsolf2 : valAt sol f2.x f2.y = fg1.value := by
            have := hsext fg1 hfg1m hfg1v0
            rw [hfg1x, hfg1y] at this
            exact this
          have hf2v : f2.value = fg1.value := by
            have := valAt_of_mem hsok hm2
            rw [this] at hsolf2
            exact hsolf2
          have hgval : valAt g f2.x f2.y = fg1.value := by
            rw [← valAt_setValue_ne v hf2c, ← hfg1v]
          have hgne : valAt g f2.x f2.y ≠ 0 := by
            rw [hgval]; exact hfg1v0
          obtain ⟨fg, hfgff, hfgm, hfgx, hfgy, hfgv⟩ := valAt_ne_zero hgne
          have hfgc : ¬(fg.x = x ∧ fg.y = y) := by
            rw [hfgx, hfgy]; exact hf2c
          have hfgsu : sameUnit fg.x fg.y x y := by
            rw [hfgx, hfgy]
            have := sameUnit_symm hsu
            rw [hf1c.1, hf1c.2] at this
            exact this
          have := (canBeAt_iff hok hx hy).mp hcba fg hfgm hfgc hfgsu
          rw [hfgv, hgval] at this
          rw [hf1v, hf2v]
          exact fun he => this he.symm

/-! ### Completeness: the search succeeds when a solution extends the grid -/

theorem isComplete_iff {g : Grid} :
    g.isComplete = true ↔ ∀ f ∈ g.fields, f.value ≠ 0 := by
  rw [Grid.isComplete, Grid.emptyFields]
  constructor
  · intro h f hf hfv
    have hlen : (g.fields.filter (fun f => f.isEmpty)).length = 0 := by
      simpa using h
    have hnil := List.length_eq_zero.mp hlen
    have hmem : f ∈ g.fields.filter (fun f => f.isEmpty) :=
      List.mem_filter.mpr ⟨hf, by simp [Field.isEmpty, hfv]⟩
    rw [hnil] at hmem
    cases hmem
  · intro h
    have hnil : g.fields.filter (fun f => f.isEmpty) = [] := by
      rw [List.filter_eq_nil_iff]
      intro f hf
      simp [Field.isEmpty, h f hf]
    rw [hnil]
    rfl

theorem isConsistent_canBeAt {S : Grid} (hcons : S.isConsistent = true)
    {f : Field} (hm : f ∈ S.fields) (hv : f.value ≠ 0) :
    S.canBeAt f.value f.x f.y = true := by
  rw [Grid.isConsistent, List.all_eq_true] at hcons
  apply hcons
  rw [Grid.filledFields, List.mem_filter]
  exact ⟨hm, by simp [Field.isEmpty, hv]⟩

theorem canBeAt_mono {g S : Grid} (hokg : g.ok) (hokS : S.ok)
    (hext : ExtendsTo g S) {v x y : Nat} (hv : 1 ≤ v)
    (hx : x ≤ 8) (hy : y ≤ 8)
    (h : S.canBeAt v x y = true) : g.canBeAt v x y = true := by
  rw [canBeAt_iff hokg hx hy]
  rw [canBeAt_iff hokS hx hy] at h
  intro f hf hne hsu
  by_cases hfz : f.value = 0
  · rw [hfz]; omega
  · have hvS : valAt S f.x f.y = f.value := hext f hf hfz
    have hvSne : valAt S f.x f.y ≠ 0 := by rw [hvS]; exact hfz
    obtain ⟨fS, hfSff, hfSm, hfSx, hfSy, hfSv⟩ := valAt_ne_zero hvSne
    have := h fS hfSm (by rw [hfSx, hfSy]; exact hne)
      (by rw [hfSx, hfSy]; exact hsu)
    rw [hfSv, hvS] at this
    exact this

theorem valAt_complete_pos {S : Grid} (hok : S.ok)
    (hcomp : S.isComplete = true) {x y : Nat} (hx : x ≤ 8) (hy : y ≤ 8) :
    valAt S x y ≠ 0 ∧ valAt S x y ≤ 9 := by
  obtain ⟨f, hff, hfx, hfy, hfm⟩ := fieldFirst_total hok hx hy
  have hval : valAt S x y = f.value := by rw [valAt, hff]
  have hpos := (isComplete_iff.mp hcomp) f hfm
  have hb := (hok.2.2 f hfm).2.2
  rw [hval]
  exact ⟨hpos, hb⟩

theorem solverLoop_complete
    (recur : Grid → Option Grid × Grid)
    (hrec_none : ∀ g g2, recur g = (none, g2) → g2 = g)
    {x y w : Nat} :
    ∀ (vs : List Nat) (g : Grid) {f0 : Field},
      g.fieldFirst x y = some f0 → f0.value = 0 →
      w ∈ vs → g.canBeAt w x y = true →
      (recur (g.setValue x y w)).1.isSome = true →
      (solverLoop recur x y vs g).1.isSome = true := by
  intro vs
  induction vs with
  | nil =>
    intro g f0 hff h0 hw
    cases hw
  | cons v vs ih =>
    intro g f0 hff h0 hw hcw hrw
    simp only [solverLoop]
    by_cases hc : g.canBeAt v x y
    · rw [if_pos hc]
      cases hrc : recur (g.setValue x y v) with
      | mk o gres =>
        cases o with
        | some s2 => simp only [hrc]; rfl
        | none =>
          simp only [hrc]
          have hgs : gres = g.setValue x y v := hrec_none _ _ hrc
          subst hgs
          rw [setValue_cancel hff h0 v]
          rcases List.mem_cons.mp hw with rfl | hwvs
          · rw [hrc] at hrw
            simp at hrw
          · exact ih g hff h0 hwvs hcw hrw
    · rw [if_neg hc]
      rcases List.mem_cons.mp hw with rfl | hwvs
      · exact absurd hcw hc
      · exact ih g hff h0 hwvs hcw hrw

theorem backtrackAux_complete (S : Grid) (hokS : S.ok)
    (hcomp : S.isComplete = true) (hcons : S.isConsistent = true) :
    ∀ (fuel : Nat) (g : Grid), g.ok → g.numEmpty < fuel → ExtendsTo g S →
      (backtrackAux fuel g).1.isSome = true := by
  intro fuel
  induction fuel with
  | zero =>
    intro g hok hlt hext
    exact absurd hlt (Nat.not_lt_zero _)
  | succ fuel ih =>
    intro g hok hlt hext
    simp only [backtrackAux]
    cases hfe : g.findEmpty with
    | none => rfl
    | some p =>
      obtain ⟨x, y⟩ := p
      obtain ⟨hx, hy, f0, hff, h0⟩ := findEmpty_some hfe
      obtain ⟨hwne, hw9⟩ := valAt_complete_pos hokS hcomp hx hy
      obtain ⟨fS, hfSff, hfSm, hfSx, hfSy, hfSv⟩ := valAt_ne_zero hwne
      have hcbaS : S.canBeAt (valAt S x y) x y = true := by
        have := isConsistent_canBeAt hcons hfSm (by rw [hfSv]; exact hwne)
        rw [hfSx, hfSy, hfSv] at this
        exact this
      have hcbag : g.canBeAt (valAt S x y) x y = true :=
        canBeAt_mono hok hokS hext (by omega) hx hy hcbaS
      have hext1 : ExtendsTo (g.setValue x y (valAt S x y)) S := by
        intro f hf hfv
        rcases mem_updateFirst hf with hmem | ⟨h1, h2, h3⟩
        · exact hext f hmem hfv
        · rw [h1, h2, h3]
      have hne1 : (g.setValue x y (valAt S x y)).numEmpty < fuel := by
        have := numEmpty_setValue hff h0 hwne
        omega
      have hok1 := Grid.ok_setValue hok hx hy hw9
      have hrw := ih (g.setValue x y (valAt S x y)) hok1 hne1 hext1
      have hwmem : valAt S x y ∈ List.range' 1 9 := by
        rw [List.mem_range'_1]
        omega
      exact solverLoop_complete _
        (fun ga gb hab => backtrackAux_none_restores fuel ga hab) _ g hff h0
        hwmem hcbag hrw

theorem genLoop_complete
    (recur : Nat → Grid → Option Grid × Grid × Nat)
    (hrec_none : ∀ k g g2 k2, recur k g = (none, g2, k2) → g2 = g)
    {x y w : Nat} :
    ∀ (vs : List Nat) (k : Nat) (g : Grid) {f0 : Field},
      g.fieldFirst x y = some f0 → f0.value = 0 →
      w ∈ vs →
      (∀ k', (recur k' (g.setValue x y w)).1.isSome = true) →
      (genLoop recur x y vs k g).1.isSome = true := by
  intro vs
  induction vs with
  | nil =>
    intro k g f0 hff h0 hw
    cases hw
  | cons v vs ih =>
    intro k g f0 hff h0 hw hrw
    simp only [genLoop]
    cases hrc : recur k (g.setValue x y v) with
    | mk o rest =>
      cases rest with
      | mk gres kres =>
        cases o with
        | some s2 => simp only [hrc]; rfl
        | none =>
          simp only [hrc]
          have hgs : gres = g.setValue x y v := hrec_none _ _ _ _ hrc
          subst hgs
          rw [setValue_cancel hff h0 v]
          rcases List.mem_cons.mp hw with rfl | hwvs
          · have := hrw k
            rw [hrc] at this
            simp at this
          · exact ih kres g hff h0 hwvs hrw

theorem fillGridAux_complete (shs : Nat → List Nat → List Nat)
    (hsh : ∀ k l, (shs k l).Perm l) (S : Grid) (hokS : S.ok)
    (hcomp : S.isComplete = true) (hcons : S.isConsistent = true) :
    ∀ (fuel k : Nat) (g : Grid), g.ok → g.numEmpty < fuel → ExtendsTo g S →
      (fillGridAux shs fuel k g).1.isSome = true := by
  intro fuel
  induction fuel with
  | zero =>
    intro k g hok hlt hext
    exact absurd hlt (Nat.not_lt_zero _)
  | succ fuel ih =>
    intro k g hok hlt hext
    simp only [fillGridAux]
    cases hfe : g.findEmpty with
    | none => rfl
    | some p =>
      obtain ⟨x, y⟩ := p
      obtain ⟨hx, hy, f0, hff, h0⟩ := findEmpty_some hfe
      obtain ⟨hwne, hw9⟩ := valAt_complete_pos hokS hcomp hx hy
      obtain ⟨fS, hfSff, hfSm, hfSx, hfSy, hfSv⟩ := valAt_ne_zero hwne
      have hcbaS : S.canBeAt (valAt S x y) x y = true := by
        have := isConsistent_canBeAt hcons hfSm (by rw [hfSv]; exact hwne)
        rw [hfSx, hfSy, hfSv] at this
        exact this
      have hcbag : g.canBeAt (valAt S x y) x y = true :=
        canBeAt_mono hok hokS hext (by omega) hx hy hcbaS
      have hwmem : valAt S x y ∈ shs k (possibleValues g x y) := by
        rw [(hsh k _).mem_iff]
        rw [mem_possibleValues]
        exact ⟨⟨by omega, hw9⟩, hcbag⟩
      have hext1 : ExtendsTo (g.setValue x y (valAt S x y)) S := by
        intro f hf hfv
        rcases mem_updateFirst hf with hmem | ⟨h1, h2, h3⟩
        · exact hext f hmem hfv
        · rw [h1, h2, h3]
      have hne1 : (g.setValue x y (valAt S x y)).numEmpty < fuel := by
        have := numEmpty_setValue hff h0 hwne
        omega
      have hok1 := Grid.ok_setValue hok hx hy hw9
      exact genLoop_complete _
        (fun ka ga gb kb hab => fillGridAux_none_restores shs fuel ka ga hab)
        _ _ g hff h0 hwmem
        (fun k' => ih k' (g.setValue x y (valAt S x y)) hok1 hne1 hext1)

/-! ### The two-fives scenario admits no completion the search could reach -/

theorem twoFives_unsolvable (sol : Grid) (hsok : sol.ok)
    (hscomp : sol.isComplete = true) (hext : ExtendsTo twoFives sol)
    (hnc : NoNewConflict twoFives sol) : False := by
  have hval0 : ∀ x : Nat, x < 9 → ∀ y : Nat, y < 9 → 1 ≤ y →
      valAt twoFives x y = 0 := by decide
  have hg00 : valAt sol 0 0 = 5 := hext ⟨0, 0, 5⟩ (by decide) (by decide)
  have hg10 : valAt sol 1 0 = 5 := hext ⟨1, 0, 5⟩ (by decide) (by decide)
  have hbnd : ∀ x y : Nat, x ≤ 8 → y ≤ 8 →
      1 ≤ valAt sol x y ∧ valAt sol x y ≤ 9 := by
    intro x y hx hy
    obtain ⟨h1, h2⟩ := valAt_complete_pos hsok hscomp hx hy
    exact ⟨Nat.one_le_iff_ne_zero.mpr h1, h2⟩
  have key : ∀ x1 y1 x2 y2 : Nat, x1 ≤ 8 → y1 ≤ 8 → x2 ≤ 8 → y2 ≤ 8 →
      valAt twoFives x1 y1 = 0 → ¬(x1 = x2 ∧ y1 = y2) →
      sameUnit x1 y1 x2 y2 → valAt sol x1 y1 ≠ valAt sol x2 y2 := by
    intro x1 y1 x2 y2 hx1 hy1 hx2 hy2 h0 hne hsu
    obtain ⟨f1, hff1, hf1x, hf1y, hm1⟩ := fieldFirst_total hsok hx1 hy1
    obtain ⟨f2, hff2, hf2x, hf2y, hm2⟩ := fieldFirst_total hsok hx2 hy2
    have hv1 : valAt sol x1 y1 = f1.value := by rw [valAt, hff1]
    have hv2 : valAt sol x2 y2 = f2.value := by rw [valAt, hff2]
    rw [hv1, hv2]
    apply hnc f1 hm1 f2 hm2
    · rw [hf1x, hf1y]; exact h0
    · exact isComplete_iff.mp hscomp f1 hm1
    · exact isComplete_iff.mp hscomp f2 hm2
    · rw [hf1x, hf1y, hf2x, hf2y]; exact hne
    · rw [hf1x, hf1y, hf2x, hf2y]; exact hsu
  have row5 : ∀ y : Nat, 1 ≤ y → y ≤ 8 → ∃ x, x ≤ 8 ∧ valAt sol x y = 5 := by
    intro y hy1 hy8
    by_contra hno
    push_neg at hno
    have hinj : Set.InjOn (fun x => valAt sol x y) ↑(Finset.range 9) := by
      intro a ha b hb hab
      simp only [Finset.coe_range, Set.mem_Iio] at ha hb
      by_contra hne
      exact key a y b y (by omega) hy8 (by omega) hy8
        (hval0 a (by omega) y (by omega) hy1)
        (fun hp => hne hp.1) (Or.inl rfl) hab
    have hsubset : (Finset.range 9).image (fun x => valAt sol x y) ⊆
        (Finset.Icc 1 9).erase 5 := by
      intro b hb
      rw [Finset.mem_image] at hb
      obtain ⟨a, ha, hab⟩ := hb
      rw [Finset.mem_range] at ha
      rw [Finset.mem_erase, Finset.mem_Icc]
      obtain ⟨h1, h2⟩ := hbnd a y (by omega) hy8
      exact ⟨by rw [← hab]; exact hno a (by omega),
        by rw [← hab]; exact ⟨h1, h2⟩⟩
    have hcard := Finset.card_image_of_injOn hinj
    rw [Finset.card_range] at hcard
    have hle := Finset.card_le_card hsubset
    rw [hcard] at hle
    have hc8 : ((Finset.Icc 1 9).erase 5).card = 8 := by decide
    omega
  have row5t : ∀ y : Nat, ∃ x,
      (1 ≤ y ∧ y ≤ 8) → (x ≤ 8 ∧ valAt sol x y = 5) := by
    intro y
    by_cases hy : 1 ≤ y ∧ y ≤ 8
    · obtain ⟨x, hx⟩ := row5 y hy.1 hy.2
      exact ⟨x, fun _ => hx⟩
    · exact ⟨0, fun hc => absurd hc hy⟩
  choose cx hcx using row5t
  have hcx8 : ∀ y : Nat, 1 ≤ y → y ≤ 8 → cx y ≤ 8 :=
    fun y h1 h2 => (hcx y ⟨h1, h2⟩).1
  have hcx5 : ∀ y : Nat, 1 ≤ y → y ≤ 8 → valAt sol (cx y) y = 5 :=
    fun y h1 h2 => (hcx y ⟨h1, h2⟩).2
  have hcx0 : ∀ y : Nat, 1 ≤ y → y ≤ 8 → cx y ≠ 0 := by
    intro y h1 h2 hc
    have hk := key (cx y) y 0 0 (hcx8 y h1 h2) h2 (by omega) (by omega)
      (hval0 (cx y) (by have := hcx8 y h1 h2; omega) y (by omega) h1)
      (fun hp => by omega) (Or.inr (Or.inl hc))
    rw [hcx5 y h1 h2, hg00] at hk
    exact hk rfl
  have hcx1 : ∀ y : Nat, 1 ≤ y → y ≤ 8 → cx y ≠ 1 := by
    intro y h1 h2 hc
    have hk := key (cx y) y 1 0 (hcx8 y h1 h2) h2 (by omega) (by omega)
      (hval0 (cx y) (by have := hcx8 y h1 h2; omega) y (by omega) h1)
      (fun hp => by omega) (Or.inr (Or.inl hc))
    rw [hcx5 y h1 h2, hg10] at hk
    exact hk rfl
  have hinjcx : Set.InjOn cx ↑(Finset.Icc 1 8) := by
    intro a ha b hb hab
    rw [Finset.coe_Icc, Set.mem_Icc] at ha hb
    by_contra hne
    have hk := key (cx a) a (cx b) b (hcx8 a ha.1 ha.2) ha.2
      (hcx8 b hb.1 hb.2) hb.2
      (hval0 (cx a) (by have := hcx8 a ha.1 ha.2; omega) a (by omega) ha.1)
      (fun hp => hne hp.2) (Or.inr (Or.inl hab))
    rw [hcx5 a ha.1 ha.2, hcx5 b hb.1 hb.2] at hk
    exact hk rfl
  have hsubcx : (Finset.Icc 1 8).image cx ⊆ Finset.Icc 2 8 := by
    intro b hb
    rw [Finset.mem_image] at hb
    obtain ⟨a, ha, hab⟩ := hb
    rw [Finset.mem_Icc] at ha
    rw [Finset.mem_Icc]
    have h8 := hcx8 a ha.1 ha.2
    have h0 := hcx0 a ha.1 ha.2
    have h1 := hcx1 a ha.1 ha.2
    rw [← hab]
    omega
  have hc1 := Finset.card_image_of_injOn hinjcx
  have hc2 := Finset.card_le_card hsubcx
  rw [hc1] at hc2
  have hca : (Finset.Icc 1 8).card = 8 := by decide
  have hcb : (Finset.Icc 2 8).card = 7 := by decide
  omega

theorem backtrackAux_succ_some (fuel : Nat) (g : Grid) {x y : Nat}
    (hfe : g.findEmpty = some (x, y)) :
    backtrackAux (fuel + 1) g =
      solverLoop (backtrackAux fuel) x y (List.range' 1 9) g := by
  simp only [backtrackAux, hfe]

theorem solverLoop_cons_pos (recur : Grid → Option Grid × Grid)
    {x y v : Nat} (vs : List Nat) (g : Grid) (hc : g.canBeAt v x y = true) :
    solverLoop recur x y (v :: vs) g =
      match recur (g.setValue x y v) with
      | (some sol, gs) => (some sol, gs)
      | (none, g2) => solverLoop recur x y vs (g2.setValue x y 0) := by
  simp only [solverLoop, if_pos hc]

theorem twoFives_no_solution :
    ∀ fuel : Nat, (backtrackAux fuel twoFives).1 = none := by
  intro fuel
  cases hbt : backtrackAux fuel twoFives with
  | mk o gs =>
    cases o with
    | none => rfl
    | some sol =>
      exfalso
      obtain ⟨hsok, hscomp, hext, hnc⟩ := backtrackAux_sound fuel twoFives
        (by decide) hbt
      exact twoFives_unsolvable sol hsok hscomp hext hnc

/-! ### Claim theorems -/

/-- Claim C1, counterexample: the claim says `solve` fails with `NoSolution`
on every inconsistent board and never returns a board.  The all-fives board
is inconsistent, yet `solve` returns it (the search finds no empty cell and
immediately reports the untouched copy as a solution). -/
theorem C1_counterexample :
    allFives.isConsistent = false ∧ solve allFives = some allFives := by
  constructor
  · decide
  · decide

/-- Claim C1, amended: `solve` is not guaranteed to fail on an inconsistent
board — a complete inconsistent board is returned as-is, because the search
never re-checks pre-filled cells.  The concrete scenario of the claim does
hold: on the board that is empty except for the value `5` at `(0,0)` and
`(1,0)`, the search fails at every fuel bound, so `solve` raises
no-solution. -/
theorem C1_amended :
    (∀ fuel : Nat, solveFuel fuel twoFives = none) ∧
      solve allFives = some allFives := by
  constructor
  · intro fuel
    rw [solveFuel, gridCopy_id]
    exact twoFives_no_solution fuel
  · decide

/-- Claim C2: every board returned by `BacktrackingGenerator.generate`
(for any stream of shuffles that permute the candidate lists) is complete
and consistent. -/
theorem C2_generate_solved :
    ∀ (shs : Nat → List Nat → List Nat), (∀ k l, (shs k l).Perm l) →
      ∀ g, generate shs = some g →
        g.isComplete = true ∧ g.isConsistent = true := by
  intro shs hsh g hgen
  rw [generate] at hgen
  cases hfill : fillGridAux shs 82 0 emptyGrid with
  | mk o rest =>
    cases rest with
    | mk gs k2 =>
      rw [hfill] at hgen
      have ho : o = some g := hgen
      subst ho
      obtain ⟨hgok, hgcomp, hgext, hgnc⟩ :=
        fillGridAux_sound shs hsh 82 0 emptyGrid (by decide) hfill
      refine ⟨hgcomp, ?_⟩
      have hempty0 : ∀ x : Nat, x < 9 → ∀ y : Nat, y < 9 →
          valAt emptyGrid x y = 0 := by decide
      rw [Grid.isConsistent, List.all_eq_true]
      intro f hf
      rw [Grid.filledFields, List.mem_filter] at hf
      obtain ⟨hfm, hfne⟩ := hf
      have hfv : f.value ≠ 0 := by simpa [Field.isEmpty] using hfne
      obtain ⟨hfx, hfy, -⟩ := hgok.2.2 f hfm
      rw [canBeAt_iff hgok hfx hfy]
      intro f2 hm2 hne hsu
      by_cases hf2v : f2.value = 0
      · rw [hf2v]
        exact fun he => hfv he.symm
      · obtain ⟨hf2x, hf2y, -⟩ := hgok.2.2 f2 hm2
        exact hgnc f2 hm2 f hfm
          (hempty0 f2.x (by omega) f2.y (by omega)) hf2v hfv hne hsu

/-- Claim C2, witness: with the identity shuffle stream the generator
produces a board, and that board is complete and consistent. -/
theorem C2_witness :
    ∃ g, generate (fun _ l => l) = some g ∧ g.isComplete = true ∧
      g.isConsistent = true := by
  have hperm : ∀ (k : Nat) (l : List Nat), ((fun _ l => l) k l).Perm l :=
    fun _ l => List.Perm.refl l
  have hsome := fillGridAux_complete (fun _ l => l) hperm shiftedSolution
    (by decide) (by decide) (by decide) 82 0 emptyGrid (by decide) (by decide)
    (by decide)
  obtain ⟨g, hg⟩ := Option.isSome_iff_exists.mp hsome
  have hgen : generate (fun _ l => l) = some g := by rw [generate, hg]
  exact ⟨g, hgen, C2_generate_solved _ hperm g hgen⟩

/-- Claim C6: solving the all-empty board with the deterministic solver
(candidates `1..9` ascending, cells scanned `x`-outer, `y`-inner) returns a
board whose cell `(0,0)` holds `1`. -/
theorem C6_solve_empty :
    ∃ g, solve emptyGrid = some g ∧ valAt g 0 0 = 1 := by
  have hok1 : (emptyGrid.setValue 0 0 1).ok := by decide
  have happly := backtrackAux_complete shiftedSolution (by decide) (by decide)
    (by decide) 81 (emptyGrid.setValue 0 0 1) hok1 (by decide) (by decide)
  obtain ⟨sol, hsol⟩ := Option.isSome_iff_exists.mp happly
  cases hbt : backtrackAux 81 (emptyGrid.setValue 0 0 1) with
  | mk o gs =>
    rw [hbt] at hsol
    have ho : o = some sol := hsol
    subst ho
    obtain ⟨hsok, hscomp, hsext, hsnc⟩ :=
      backtrackAux_sound 81 (emptyGrid.setValue 0 0 1) hok1 hbt
    have hval : valAt sol 0 0 = 1 := hsext ⟨0, 0, 1⟩ (by decide) (by decide)
    refine ⟨sol, ?_, hval⟩
    rw [solve, solveFuel, gridCopy_id]
    rw [show (82 : Nat) = 81 + 1 from rfl,
      backtrackAux_succ_some 81 emptyGrid
        (show emptyGrid.findEmpty = some (0, 0) from by decide)]
    rw [show (List.range' 1 9 : List Nat) = 1 :: List.range' 2 8 from rfl]
    rw [solverLoop_cons_pos (backtrackAux 81) (List.range' 2 8) emptyGrid
      (show emptyGrid.canBeAt 1 0 0 = true from by decide)]
    rw [hbt]

/-- Claim C3: on a valid grid, the conjunction of the three per-unit
helpers compares the probed value against every same-unit field except
exactly the probed cell itself — despite the small-square helper filtering
by single-axis comparison — and for an empty probed cell `can_be_at` holds
iff the value occurs nowhere among the values of the row, the column and
the small square. -/
theorem C3_canBeAt_characterization :
    ∀ (g : Grid), g.ok → ∀ (v x y : Nat), x ≤ 8 → y ≤ 8 →
      (g.canBeAt v x y = true ↔
        ∀ f ∈ g.fields, ¬(f.x = x ∧ f.y = y) → sameUnit f.x f.y x y →
          f.value ≠ v) ∧
      (valAt g x y = 0 → 1 ≤ v →
        (g.canBeAt v x y = true ↔
          ¬ v ∈ ((g.row y ++ g.column x ++ g.smallSquare x y).map
            Field.value))) := by
  intro g hok v x y hx hy
  refine ⟨canBeAt_iff hok hx hy, ?_⟩
  intro hempty hv1
  rw [canBeAt_iff hok hx hy]
  constructor
  · intro h hmem
    rw [List.mem_map] at hmem
    obtain ⟨f', hf'm, hf'v⟩ := hmem
    rw [List.mem_append, List.mem_append] at hf'm
    have hfacts : f' ∈ g.fields ∧ sameUnit f'.x f'.y x y := by
      rcases hf'm with (hr | hc) | hs
      · obtain ⟨hm, hy'⟩ := mem_row.mp hr
        exact ⟨hm, Or.inl hy'⟩
      · obtain ⟨hm, hx'⟩ := mem_column.mp hc
        exact ⟨hm, Or.inr (Or.inl hx')⟩
      · obtain ⟨hm, hbx, hby⟩ := (mem_smallSquare hok hx hy).mp hs
        exact ⟨hm, Or.inr (Or.inr ⟨hbx, hby⟩)⟩
    by_cases hself : f'.x = x ∧ f'.y = y
    · have hval := valAt_of_mem hok hfacts.1
      rw [hself.1, hself.2, hempty] at hval
      rw [← hf'v, ← hval] at hv1
      omega
    · exact h f' hfacts.1 hself hfacts.2 hf'v
  · intro h f hfm hne hsu
    intro hfv
    apply h
    rw [List.mem_map]
    refine ⟨f, ?_, hfv⟩
    rw [List.mem_append, List.mem_append]
    rcases hsu with hr | hc | ⟨hbx, hby⟩
    · exact Or.inl (Or.inl (mem_row.mpr ⟨hfm, hr⟩))
    · exact Or.inl (Or.inr (mem_column.mpr ⟨hfm, hc⟩))
    · exact Or.inr ((mem_smallSquare hok hx hy).mpr ⟨hfm, hbx, hby⟩)

/-- Claim C3, witness: the characterization applied to the two-fives board
forbids a third `5` in row `0`. -/
theorem C3_witness : twoFives.canBeAt 5 2 0 = false := by
  have h := (C3_canBeAt_characterization twoFives (by decide) 5 2 0
    (by decide) (by decide)).1
  by_contra hc
  rw [Bool.not_eq_false] at hc
  have h5 := h.mp hc ⟨0, 0, 5⟩ (by decide) (by decide) (by decide)
  exact h5 rfl

/-- Claim C4: a recursive search call that returns without signalling a
found solution leaves the grid it worked on holding exactly the values it
held at entry — for the solver's `__backtrack` and the generator's
`__fill_grid` alike. -/
theorem C4_backtrack_restores :
    ∀ (fuel : Nat) (g : Grid),
      ((backtrackAux fuel g).1 = none → (backtrackAux fuel g).2 = g) ∧
      (∀ (shs : Nat → List Nat → List Nat) (k : Nat),
        (fillGridAux shs fuel k g).1 = none →
        (fillGridAux shs fuel k g).2.1 = g) := by
  intro fuel g
  constructor
  · intro h
    cases hbt : backtrackAux fuel g with
    | mk o gs =>
      rw [hbt] at h
      have ho : o = none := h
      subst ho
      exact backtrackAux_none_restores fuel g hbt
  · intro shs k h
    cases hbt : fillGridAux shs fuel k g with
    | mk o rest =>
      cases rest with
      | mk gs k2 =>
        rw [hbt] at h
        have ho : o = none := h
        subst ho
        exact fillGridAux_none_restores shs fuel k g hbt

/-- Claim C4, witness: on the dead-end board both searches fail and hand
back the board unchanged. -/
theorem C4_witness :
    (backtrackAux 82 deadEnd).2 = deadEnd ∧
      (fillGridAux (fun _ l => l) 82 0 deadEnd).2.1 = deadEnd := by
  refine ⟨(C4_backtrack_restores 82 deadEnd).1 ?_,
    (C4_backtrack_restores 82 deadEnd).2 (fun _ l => l) 0 ?_⟩
  · decide
  · decide

/-- Claim C5: the solver searches a private deep copy: the caller's grid
after `solve` is exactly the argument grid, the copy reproduces every field
value, and any returned board keeps every filled cell of the input. -/
theorem C5_solve_frame :
    ∀ g : Grid, (solveCaller g).2 = g ∧ g.copy = g ∧
      (g.ok → ∀ g', solve g = some g' → ExtendsTo g g') := by
  intro g
  refine ⟨rfl, gridCopy_id g, ?_⟩
  intro hok g' hsol
  rw [solve, solveFuel, gridCopy_id] at hsol
  cases hbt : backtrackAux 82 g with
  | mk o gs =>
    rw [hbt] at hsol
    have ho : o = some g' := hsol
    subst ho
    exact (backtrackAux_sound 82 g hok hbt).2.2.1

/-- Claim C5, witness: on the all-fives board `solve` returns a board and
the frame properties hold. -/
theorem C5_witness :
    (solveCaller allFives).2 = allFives ∧
      ∃ g', solve allFives = some g' ∧ ExtendsTo allFives g' := by
  obtain ⟨h1, h2, h3⟩ := C5_solve_frame allFives
  exact ⟨h1, allFives, by decide, h3 (by decide) allFives (by decide)⟩

/-! ### Lemmas for construction and the emptying utility -/

theorem hasDupCoords_iff :
    ∀ l : List Field, gridInit.hasDupCoords l = false ↔
      l.Pairwise (fun f1 f2 => ¬(f1.x = f2.x ∧ f1.y = f2.y)) := by
  intro l
  induction l with
  | nil => simp [gridInit.hasDupCoords]
  | cons f fs ih =>
    rw [gridInit.hasDupCoords, Bool.or_eq_false_iff, List.pairwise_cons, ih]
    simp only [List.any_eq_false]
    constructor
    · intro ⟨h1, h2⟩
      refine ⟨fun f2 hf2 hc => ?_, h2⟩
      have := h1 f2 hf2
      simp [hc.1, hc.2] at this
    · intro ⟨h1, h2⟩
      refine ⟨fun f2 hf2 => ?_, h2⟩
      have := h1 f2 hf2
      simpa using this

theorem countP_set (p : Field → Bool) :
    ∀ (l : List Field) (i : Nat) (a : Field), i < l.length →
      (l.set i a).countP p + (if p (l.getD i ⟨0, 0, 0⟩) then 1 else 0) =
        l.countP p + (if p a then 1 else 0) := by
  intro l
  induction l with
  | nil => intro i a h; simp at h
  | cons f fs ih =>
    intro i a h
    cases i with
    | zero =>
      simp only [List.set_cons_zero, List.countP_cons, List.getD_cons_zero]
      by_cases hpa : p a <;> by_cases hpf : p f <;> simp [hpa, hpf] <;> omega
    | succ i =>
      rw [List.set_cons_succ, List.countP_cons, List.countP_cons,
        List.getD_cons_succ]
      have := ih i a (by simpa using h)
      omega

theorem mem_filledIdxsFrom :
    ∀ (l : List Field) (s j : Nat),
      j ∈ filledIdxsFrom s l ↔
        ∃ d, d < l.length ∧ j = s + d ∧
          (l.getD d ⟨0, 0, 0⟩).value ≠ 0 := by
  intro l
  induction l with
  | nil => intro s j; simp [filledIdxsFrom]
  | cons f fs ih =>
    intro s j
    rw [filledIdxsFrom]
    by_cases hf : f.isEmpty
    · rw [if_neg (by simp [hf])]
      rw [ih]
      constructor
      · intro ⟨d, hd, hj, hv⟩
        exact ⟨d + 1, by simpa using hd, by omega,
          by simpa [List.getD_cons_succ] using hv⟩
      · intro ⟨d, hd, hj, hv⟩
        cases d with
        | zero =>
          exfalso
          rw [List.getD_cons_zero] at hv
          rw [Field.isEmpty, beq_iff_eq] at hf
          exact hv hf
        | succ d =>
          exact ⟨d, by simpa using hd, by omega,
            by simpa [List.getD_cons_succ] using hv⟩
    · rw [if_pos (by simp [hf])]
      rw [List.mem_cons, ih]
      constructor
      · intro h
        rcases h with rfl | ⟨d, hd, hj, hv⟩
        · refine ⟨0, by simp, by omega, ?_⟩
          rw [List.getD_cons_zero]
          rw [Field.isEmpty] at hf
          simpa using hf
        · exact ⟨d + 1, by simpa using hd, by omega,
            by simpa [List.getD_cons_succ] using hv⟩
      · intro ⟨d, hd, hj, hv⟩
        cases d with
        | zero => exact Or.inl (by omega)
        | succ d =>
          exact Or.inr ⟨d, by simpa using hd, by omega,
            by simpa [List.getD_cons_succ] using hv⟩

theorem length_filledIdxsFrom :
    ∀ (l : List Field) (s : Nat),
      (filledIdxsFrom s l).length = l.countP (fun f => !f.isEmpty) := by
  intro l
  induction l with
  | nil => intro s; simp [filledIdxsFrom]
  | cons f fs ih =>
    intro s
    rw [filledIdxsFrom, List.countP_cons]
    by_cases hf : f.isEmpty
    · rw [if_neg (by simp [hf])]
      simp [hf, ih]
    · rw [if_pos (by simp [hf])]
      simp [hf, ih]

theorem numFilled_eq_countP (g : Grid) :
    g.filledFields.length = g.fields.countP (fun f => !f.isEmpty) := by
  rw [Grid.filledFields, ← List.countP_eq_length_filter]

theorem length_filledIdxs (g : Grid) :
    g.filledIdxs.length = g.filledFields.length := by
  rw [Grid.filledIdxs, length_filledIdxsFrom, numFilled_eq_countP]

theorem mem_filledIdxs {g : Grid} {i : Nat} (h : i ∈ g.filledIdxs) :
    i < g.fields.length ∧ (g.fields.getD i ⟨0, 0, 0⟩).value ≠ 0 := by
  rw [Grid.filledIdxs, mem_filledIdxsFrom] at h
  obtain ⟨d, hd, hj, hv⟩ := h
  have : i = d := by omega
  subst this
  exact ⟨hd, hv⟩

theorem clearAt_length (g : Grid) (i : Nat) :
    (g.clearAt i).fields.length = g.fields.length := by
  rw [Grid.clearAt]
  exact List.length_set g.fields i _

theorem clearAt_numFilled {g : Grid} {i : Nat} (h : i ∈ g.filledIdxs) :
    (g.clearAt i).filledFields.length + 1 = g.filledFields.length := by
  obtain ⟨hlt, hv⟩ := mem_filledIdxs h
  have hfields : (g.clearAt i).fields = g.fields.set i
      ⟨(g.fields.getD i ⟨0, 0, 0⟩).x, (g.fields.getD i ⟨0, 0, 0⟩).y, 0⟩ := rfl
  rw [numFilled_eq_countP, numFilled_eq_countP, hfields]
  have hc := countP_set (fun f => !f.isEmpty) g.fields i
    ⟨(g.fields.getD i ⟨0, 0, 0⟩).x, (g.fields.getD i ⟨0, 0, 0⟩).y, 0⟩ hlt
  have h1 : ((fun f => !f.isEmpty) (g.fields.getD i ⟨0, 0, 0⟩)) = true := by
    simp only [Field.isEmpty, Bool.not_eq_true', beq_eq_false_iff_ne, ne_eq]
    exact hv
  have h2 : ((fun f => !f.isEmpty) (⟨(g.fields.getD i ⟨0, 0, 0⟩).x,
      (g.fields.getD i ⟨0, 0, 0⟩).y, 0⟩ : Field)) = false := by
    simp [Field.isEmpty]
  rw [h1, h2] at hc
  rw [if_pos rfl, if_neg (show ¬(false = true) by simp)] at hc
  omega

theorem clearAt_numEmpty {g : Grid} {i : Nat} (h : i ∈ g.filledIdxs) :
    (g.clearAt i).numEmpty = g.numEmpty + 1 := by
  obtain ⟨hlt, hv⟩ := mem_filledIdxs h
  have hfields : (g.clearAt i).fields = g.fields.set i
      ⟨(g.fields.getD i ⟨0, 0, 0⟩).x, (g.fields.getD i ⟨0, 0, 0⟩).y, 0⟩ := rfl
  rw [numEmpty_eq_countP, numEmpty_eq_countP, hfields]
  have hc := countP_set (fun f => f.isEmpty) g.fields i
    ⟨(g.fields.getD i ⟨0, 0, 0⟩).x, (g.fields.getD i ⟨0, 0, 0⟩).y, 0⟩ hlt
  have h1 : ((fun f => f.isEmpty) (g.fields.getD i ⟨0, 0, 0⟩)) = false := by
    simp only [Field.isEmpty, beq_eq_false_iff_ne, ne_eq]
    exact hv
  have h2 : ((fun f => f.isEmpty) (⟨(g.fields.getD i ⟨0, 0, 0⟩).x,
      (g.fields.getD i ⟨0, 0, 0⟩).y, 0⟩ : Field)) = true := by
    simp [Field.isEmpty]
  rw [h1, h2] at hc
  rw [if_pos rfl, if_neg (show ¬(false = true) by simp)] at hc
  omega

theorem clearAt_getD (g : Grid) (i j : Nat) :
    ((g.clearAt i).fields.getD j ⟨0, 0, 0⟩).x =
        (g.fields.getD j ⟨0, 0, 0⟩).x ∧
      ((g.clearAt i).fields.getD j ⟨0, 0, 0⟩).y =
        (g.fields.getD j ⟨0, 0, 0⟩).y ∧
      (((g.clearAt i).fields.getD j ⟨0, 0, 0⟩).value ≠ 0 →
        (g.clearAt i).fields.getD j ⟨0, 0, 0⟩ =
          g.fields.getD j ⟨0, 0, 0⟩) := by
  rw [Grid.clearAt]
  by_cases hj : j < g.fields.length
  · by_cases hij : i = j
    · subst hij
      rw [List.getD_eq_getElem?_getD, List.getElem?_set_self (by omega),
        Option.getD_some]
      refine ⟨rfl, rfl, ?_⟩
      intro hne
      exfalso
      exact hne rfl
    · rw [List.getD_eq_getElem?_getD, List.getElem?_set_ne hij,
        ← List.getD_eq_getElem?_getD]
      exact ⟨rfl, rfl, fun _ => rfl⟩
  · rw [List.getD_eq_getElem?_getD, List.getElem?_eq_none
      (by rw [List.length_set]; omega), List.getD_eq_getElem?_getD,
      List.getElem?_eq_none (by omega)]
    exact ⟨rfl, rfl, fun _ => rfl⟩

theorem emptyValuesAux_ok (sel : Nat → Nat) :
    ∀ (t : Nat) (g : Grid), t ≤ g.filledFields.length →
      ∃ g', emptyValuesAux sel t g = .ok g' ∧
        g'.fields.length = g.fields.length ∧
        g'.filledFields.length + t = g.filledFields.length ∧
        g'.numEmpty = g.numEmpty + t ∧
        (∀ j, ((g'.fields.getD j ⟨0, 0, 0⟩).value ≠ 0 →
          g'.fields.getD j ⟨0, 0, 0⟩ = g.fields.getD j ⟨0, 0, 0⟩)) ∧
        (t = 0 → g' = g) := by
  intro t
  induction t with
  | zero =>
    intro g hle
    exact ⟨g, rfl, rfl, rfl, rfl, fun j _ => rfl, fun _ => rfl⟩
  | succ t ih =>
    intro g hle
    have hfil : 1 ≤ g.filledIdxs.length := by
      rw [length_filledIdxs]
      omega
    have hmod : sel t % g.filledIdxs.length < g.filledIdxs.length :=
      Nat.mod_lt _ (by omega)
    cases hget : g.filledIdxs.get? (sel t % g.filledIdxs.length) with
    | none =>
      exfalso
      rw [List.get?_eq_none] at hget
      omega
    | some i =>
      have hi : i ∈ g.filledIdxs := List.get?_mem hget
      have hstep : emptyValuesAux sel (t + 1) g =
          emptyValuesAux sel t (g.clearAt i) := by
        rw [emptyValuesAux, hget]
      have hle' : t ≤ (g.clearAt i).filledFields.length := by
        have := clearAt_numFilled hi
        omega
      obtain ⟨g', hok, hlen, hfill, hemp, hpres, -⟩ := ih (g.clearAt i) hle'
      refine ⟨g', by rw [hstep]; exact hok, ?_, ?_, ?_, ?_, by omega⟩
      · rw [hlen, clearAt_length]
      · have := clearAt_numFilled hi
        omega
      · have := clearAt_numEmpty hi
        omega
      · intro j hne
        obtain ⟨hx, hy, hval⟩ := clearAt_getD g i j
        have h1 := hpres j hne
        rw [h1]
        apply hval
        rw [← h1]
        exact hne

theorem emptyValuesAux_error_iff (sel : Nat → Nat) :
    ∀ (t : Nat) (g : Grid),
      emptyValuesAux sel t g = .error .choiceFromEmpty ↔
        g.filledFields.length < t := by
  intro t
  induction t with
  | zero =>
    intro g
    constructor
    · intro h
      exact absurd h (by simp [emptyValuesAux])
    · intro h
      exact absurd h (by omega)
  | succ t ih =>
    intro g
    cases hget : g.filledIdxs.get? (sel t % g.filledIdxs.length) with
    | none =>
      rw [List.get?_eq_none] at hget
      have hz : g.filledIdxs.length = 0 := by
        by_cases hl : g.filledIdxs.length = 0
        · exact hl
        · have := Nat.mod_lt (sel t) (show 0 < g.filledIdxs.length by omega)
          omega
      have hstep : emptyValuesAux sel (t + 1) g = .error .choiceFromEmpty := by
        rw [emptyValuesAux]
        have hn : g.filledIdxs.get? (sel t % g.filledIdxs.length) = none := by
          rw [List.get?_eq_none]
          omega
        rw [hn]
      rw [hstep]
      rw [length_filledIdxs] at hz
      constructor
      · intro _
        omega
      · intro _
        rfl
    | some i =>
      have hi : i ∈ g.filledIdxs := List.get?_mem hget
      have hstep : emptyValuesAux sel (t + 1) g =
          emptyValuesAux sel t (g.clearAt i) := by
        rw [emptyValuesAux, hget]
      rw [hstep, ih]
      have := clearAt_numFilled hi
      omega

theorem emptyValuesAux_cases (sel : Nat → Nat) :
    ∀ (t : Nat) (g : Grid),
      (∃ g', emptyValuesAux sel t g = .ok g') ∨
        emptyValuesAux sel t g = .error .choiceFromEmpty := by
  intro t
  induction t with
  | zero => intro g; exact Or.inl ⟨g, rfl⟩
  | succ t ih =>
    intro g
    cases hget : g.filledIdxs.get? (sel t % g.filledIdxs.length) with
    | none =>
      refine Or.inr ?_
      rw [emptyValuesAux, hget]
    | some i =>
      have hstep : emptyValuesAux sel (t + 1) g =
          emptyValuesAux sel t (g.clearAt i) := by
        rw [emptyValuesAux, hget]
      rw [hstep]
      exact ih (g.clearAt i)

/-- Claim C7: on a complete 81-cell board, a configured empty-count in
`[0, 81)` makes `empty_values` return a board with exactly that many empty
cells, all other cells keeping their original field, for every sequence of
random choices; count `0` returns the board unchanged; a count of `81` or a
negative count fails the constructor's assert (`InvalidArgument`). -/
theorem C7_emptyValues :
    ∀ (sel : Nat → Nat) (g : Grid) (n : Int),
      g.fields.length = 81 → g.isComplete = true →
      ((0 ≤ n ∧ n < 81) → generatorInit n = .ok n ∧
        ∃ g', emptyValues sel n.toNat g = .ok g' ∧
          g'.numEmpty = n.toNat ∧
          g'.filledFields.length = 81 - n.toNat ∧
          (∀ j, (g'.fields.getD j ⟨0, 0, 0⟩).value ≠ 0 →
            g'.fields.getD j ⟨0, 0, 0⟩ = g.fields.getD j ⟨0, 0, 0⟩) ∧
          (n = 0 → g' = g)) ∧
      (¬(0 ≤ n ∧ n < 81) → generatorInit n = .error .invalidArgument) := by
  intro sel g n hlen hcomp
  have hfull : g.filledFields.length = 81 := by
    have h3 : g.fields.countP (fun f => f.isEmpty) = 0 := by
      have he := numEmpty_eq_countP g
      rw [Grid.numEmpty] at he
      rw [← he]
      rw [Grid.isComplete] at hcomp
      simpa using hcomp
    have h4 := List.length_eq_countP_add_countP (fun f => f.isEmpty) g.fields
    simp only [decide_not, Bool.decide_eq_true] at h4
    rw [← numFilled_eq_countP] at h4
    rw [hlen, h3] at h4
    omega
  constructor
  · intro ⟨hn0, hn81⟩
    refine ⟨by rw [generatorInit, if_pos ⟨hn0, hn81⟩], ?_⟩
    have hle : n.toNat ≤ g.filledFields.length := by
      rw [hfull]
      omega
    obtain ⟨g', hok, hlen', hfill, hemp, hpres, hzero⟩ :=
      emptyValuesAux_ok sel n.toNat g hle
    have hcopy : emptyValues sel n.toNat g = emptyValuesAux sel n.toNat g := by
      rw [emptyValues, gridCopy_id]
    refine ⟨g', by rw [hcopy]; exact hok, ?_, ?_, hpres, ?_⟩
    · have h3 : g.numEmpty = 0 := by
        rw [Grid.numEmpty]
        rw [Grid.isComplete] at hcomp
        simpa using hcomp
      omega
    · omega
    · intro hn
      exact hzero (by omega)
  · intro hr
    rw [generatorInit, if_neg hr]

/-- Claim C7, witness: emptying two cells of the all-fives board leaves 79
filled cells, and the out-of-range counts `81` and `-3` are rejected. -/
theorem C7_witness :
    (∃ g', emptyValues (fun _ => 0) 2 allFives = .ok g' ∧ g'.numEmpty = 2 ∧
      g'.filledFields.length = 79) ∧
      generatorInit 81 = .error .invalidArgument ∧
      generatorInit (-3) = .error .invalidArgument := by
  refine ⟨?_, ?_, ?_⟩
  · obtain ⟨hA, -⟩ := C7_emptyValues (fun _ => 0) allFives 2 (by decide)
      (by decide)
    obtain ⟨-, g', hok, hnum, hfil, -, -⟩ := hA (by decide)
    exact ⟨g', hok, hnum, hfil⟩
  · exact (C7_emptyValues (fun _ => 0) allFives 81 (by decide) (by decide)).2
      (by decide)
  · exact (C7_emptyValues (fun _ => 0) allFives (-3) (by decide) (by decide)).2
      (by decide)

/-- Claim C8: board construction succeeds iff there are exactly 81 cells
with pairwise distinct coordinates; when it succeeds and every coordinate
lies in `[0,8]`, the coordinates cover the full 9x9 index space (with
distinctness this is a bijection). -/
theorem C8_gridInit :
    ∀ fs : List Field,
      ((∃ g, gridInit fs = .ok g) ↔
        (fs.length = 81 ∧
          fs.Pairwise (fun f1 f2 => ¬(f1.x = f2.x ∧ f1.y = f2.y)))) ∧
      (∀ g, gridInit fs = .ok g → g.fields = fs) ∧
      ((∀ f ∈ fs, f.x ≤ 8 ∧ f.y ≤ 8) → ∀ g, gridInit fs = .ok g →
        ∀ x, x ≤ 8 → ∀ y, y ≤ 8 → ∃ f ∈ fs, f.x = x ∧ f.y = y) := by
  intro fs
  have hcases : ∀ g, gridInit fs = .ok g →
      fs.length = 81 ∧ gridInit.hasDupCoords fs = false ∧ g = ⟨fs⟩ := by
    intro g hg
    rw [gridInit] at hg
    by_cases h1 : fs.length ≠ 81
    · rw [if_pos h1] at hg
      cases hg
    · rw [if_neg h1] at hg
      by_cases h2 : gridInit.hasDupCoords fs
      · rw [if_pos h2] at hg
        cases hg
      · rw [if_neg h2] at hg
        have hgv : g = ⟨fs⟩ := by
          injection hg with h
          exact h.symm
        exact ⟨by omega, by simpa using h2, hgv⟩
  refine ⟨⟨?_, ?_⟩, ?_, ?_⟩
  · intro ⟨g, hg⟩
    obtain ⟨hl, hd, -⟩ := hcases g hg
    exact ⟨hl, (hasDupCoords_iff fs).mp hd⟩
  · intro ⟨hlen, hpw⟩
    refine ⟨⟨fs⟩, ?_⟩
    rw [gridInit, if_neg (by omega)]
    rw [if_neg (by rw [(hasDupCoords_iff fs).mpr hpw]; simp)]
  · intro g hg
    rw [(hcases g hg).2.2]
  · intro hcoords g hg x hx y hy
    obtain ⟨hl, hd, -⟩ := hcases g hg
    exact coords_cover_list hl ((hasDupCoords_iff fs).mp hd) hcoords hx hy

/-- Claim C8, witness: the empty grid's field list constructs successfully
and its coordinates cover the index space; cell `(4, 7)` in particular. -/
theorem C8_witness :
    (∃ g, gridInit emptyGrid.fields = .ok g) ∧
      (∃ f ∈ emptyGrid.fields, f.x = 4 ∧ f.y = 7) := by
  obtain ⟨⟨-, hmk⟩, hflds, hcov⟩ := C8_gridInit emptyGrid.fields
  obtain ⟨g, hg⟩ := hmk ⟨by decide, by decide⟩
  exact ⟨⟨g, hg⟩, hcov (by decide) g hg 4 (by decide) 7 (by decide)⟩

/-- Claim C9: on a constructed board `field(x, y)` with both coordinates in
`[0,8]` returns a field carrying exactly those coordinates (the NotFound
branch is unreachable); out-of-range coordinates fail with OutOfRange. -/
theorem C9_field :
    ∀ (g : Grid), g.ok → ∀ x y : Int,
      ((0 ≤ x ∧ x ≤ 8 ∧ 0 ≤ y ∧ y ≤ 8) →
        ∃ f, g.fieldE x y = .ok f ∧ (f.x : Int) = x ∧ (f.y : Int) = y) ∧
      (¬(0 ≤ x ∧ x ≤ 8 ∧ 0 ≤ y ∧ y ≤ 8) →
        g.fieldE x y = .error .outOfRange) := by
  intro g hok x y
  constructor
  · intro hr
    obtain ⟨hx0, hx8, hy0, hy8⟩ := hr
    obtain ⟨f, hfm, hfx, hfy⟩ := coords_cover hok
      (x := x.toNat) (y := y.toNat) (by omega) (by omega)
    rw [Grid.fieldE, if_pos ⟨hx0, hx8, hy0, hy8⟩]
    cases hfind : g.fields.find?
        (fun f => (f.x : Int) == x && (f.y : Int) == y) with
    | none =>
      exfalso
      rw [List.find?_eq_none] at hfind
      apply hfind f hfm
      have hxe : (f.x : Int) = x := by
        rw [hfx]
        omega
      have hye : (f.y : Int) = y := by
        rw [hfy]
        omega
      simp [hxe, hye]
    | some f' =>
      have hpred := List.find?_some hfind
      simp only [Bool.and_eq_true, beq_iff_eq] at hpred
      exact ⟨f', rfl, hpred.1, hpred.2⟩
  · intro hr
    rw [Grid.fieldE, if_neg hr]

/-- Claim C9, witness: on the empty grid the lookup at `(3, 4)` returns the
field at `(3, 4)`, and the lookup at `(-1, 0)` fails with OutOfRange. -/
theorem C9_witness :
    (∃ f, emptyGrid.fieldE 3 4 = .ok f ∧ (f.x : Int) = 3 ∧
      (f.y : Int) = 4) ∧
      emptyGrid.fieldE (-1) 0 = .error .outOfRange := by
  exact ⟨(C9_field emptyGrid (by decide) 3 4).1 (by decide),
    (C9_field emptyGrid (by decide) (-1) 0).2 (by decide)⟩

/-- Claim C10: `empty_values` raises the empty-`choice` error exactly when
the grid has fewer filled cells than the configured count; it returns a
board exactly when the grid has at least that many filled cells. -/
theorem C10_emptyValues_error :
    ∀ (sel : Nat → Nat) (k : Nat) (g : Grid),
      (emptyValues sel k g = .error .choiceFromEmpty ↔
        g.filledFields.length < k) ∧
      ((∃ g', emptyValues sel k g = .ok g') ↔
        k ≤ g.filledFields.length) := by
  intro sel k g
  have hcopy : emptyValues sel k g = emptyValuesAux sel k g := by
    rw [emptyValues, gridCopy_id]
  rw [hcopy]
  refine ⟨emptyValuesAux_error_iff sel k g, ?_⟩
  constructor
  · intro ⟨g', hg'⟩
    by_contra hlt
    have hlt2 : g.filledFields.length < k := by omega
    rw [← emptyValuesAux_error_iff sel k g] at hlt2
    rw [hg'] at hlt2
    exact absurd hlt2 (by simp)
  · intro hle
    rcases emptyValuesAux_cases sel k g with h | h
    · exact h
    · rw [emptyValuesAux_error_iff sel k g] at h
      omega

/-- Claim C10, witness: asking for 82 empty cells on the 81-cell all-fives
board raises the empty-`choice` error; asking for 81 succeeds. -/
theorem C10_witness :
    emptyValues (fun _ => 0) 82 allFives = .error .choiceFromEmpty ∧
      ∃ g', emptyValues (fun _ => 0) 81 allFives = .ok g' := by
  exact ⟨(C10_emptyValues_error (fun _ => 0) 82 allFives).1.mpr (by decide),
    (C10_emptyValues_error (fun _ => 0) 81 allFives).2.mpr (by decide)⟩

end Sudoku
